import Mathlib

/-!
Verification of the Task/Bid/Escrow lifecycle engine of the AiAgentMarketplace
repository.

Three components are embedded:
* `TaskEscrow` — the full-lifecycle Solidity contract (tasks, bids, escrow,
  dispute resolution).  Solidity mappings become functions `Nat → _` with the
  zero-initialised default record; `msg.sender` becomes an explicit `caller`
  argument; `block.timestamp` an explicit `now` argument; `revert` becomes
  `Except.error`, which also models the all-or-nothing rollback of a reverted
  call (no partial state survives an error).  ERC20 token movements are modelled
  by a `held` balance for the contract plus a `balances` map for external
  accounts; `safeTransfer`/`safeTransferFrom` revert when the source balance is
  insufficient, which the embedding makes explicit.  Machine integers are
  `uint256`/`uint40`/`uint8` in the source; all arithmetic performed by the
  contract (counter increments, additions guarded by real token balances,
  subtractions guarded by explicit comparisons) stays far below `2^40`/`2^256`
  in every statement proved here, so `Nat` is used directly.
* `SimpleEscrow` — the minimal deposit/release/refund contract.
* `Mirror` — the off-chain database mirror's bid-update endpoint
  (`PUT /api/tasks/[id]/bids`), acting on the database component of a combined
  system state whose chain component it cannot touch.
-/

/-- Pointwise update of a map `Nat → α`, the semantics of a Solidity
mapping assignment `m[k] = v`. -/
def fupd {α : Type} (f : Nat → α) (k : Nat) (v : α) : Nat → α :=
  fun x => if x = k then v else f x

@[simp] theorem fupd_same {α : Type} (f : Nat → α) (k : Nat) (v : α) :
    fupd f k v k = v := by
  simp [fupd]

theorem fupd_other {α : Type} (f : Nat → α) {k x : Nat} (v : α) (h : x ≠ k) :
    fupd f k v x = f x := by
  simp [fupd, h]

theorem fupd_self {α : Type} (f : Nat → α) (k : Nat) :
    fupd f k (f k) = f := by
  funext x
  by_cases h : x = k <;> simp [fupd, h]

theorem fupd_fupd_same {α : Type} (f : Nat → α) (k : Nat) (v w : α) :
    fupd (fupd f k v) k w = fupd f k w := by
  funext x
  by_cases h : x = k <;> simp [fupd, h]

/-- Sum of `d 1 + d 2 + ⋯ + d n`, the total of a Solidity mapping over the ids
`1..n` actually in use. -/
def sumTo (d : Nat → Nat) : Nat → Nat
  | 0 => 0
  | n + 1 => sumTo d n + d (n + 1)

theorem sumTo_congr {d d' : Nat → Nat} :
    ∀ n, (∀ i, 1 ≤ i → i ≤ n → d i = d' i) → sumTo d n = sumTo d' n := by
  intro n
  induction n with
  | zero => intro _; rfl
  | succ n ih =>
    intro h
    simp only [sumTo]
    rw [ih (fun i h1 h2 => h i h1 (Nat.le_succ_of_le h2)), h (n + 1) (Nat.succ_le_succ (Nat.zero_le n)) (Nat.le_refl _)]

theorem sumTo_fupd_oob {d : Nat → Nat} {k : Nat} (v : Nat) {n : Nat}
    (h : k = 0 ∨ n < k) : sumTo (fupd d k v) n = sumTo d n := by
  apply sumTo_congr
  intro i h1 h2
  apply fupd_other
  rcases h with h | h
  · omega
  · omega

theorem le_sumTo {d : Nat → Nat} {k n : Nat} (h1 : 1 ≤ k) (h2 : k ≤ n) :
    d k ≤ sumTo d n := by
  induction n with
  | zero => omega
  | succ n ih =>
    simp only [sumTo]
    rcases Nat.lt_or_ge k (n + 1) with h | h
    · exact Nat.le_trans (ih (by omega)) (Nat.le_add_right _ _)
    · have : k = n + 1 := by omega
      subst this
      exact Nat.le_add_left _ _

theorem sumTo_fupd_add {d : Nat → Nat} {k n : Nat} (a : Nat)
    (h1 : 1 ≤ k) (h2 : k ≤ n) :
    sumTo (fupd d k (d k + a)) n = sumTo d n + a := by
  induction n with
  | zero => omega
  | succ n ih =>
    simp only [sumTo]
    rcases Nat.lt_or_ge k (n + 1) with h | h
    · rw [ih (by omega), fupd_other d (d k + a) (by omega : n + 1 ≠ k)]
      omega
    · have : k = n + 1 := by omega
      subst this
      rw [sumTo_fupd_oob _ (Or.inr (Nat.lt_succ_self n)), fupd_same]
      omega

theorem sumTo_fupd_zero {d : Nat → Nat} {k n : Nat}
    (h1 : 1 ≤ k) (h2 : k ≤ n) :
    sumTo (fupd d k 0) n + d k = sumTo d n := by
  induction n with
  | zero => omega
  | succ n ih =>
    simp only [sumTo]
    rcases Nat.lt_or_ge k (n + 1) with h | h
    · rw [fupd_other d 0 (by omega : n + 1 ≠ k)]
      have := ih (by omega)
      omega
    · have : k = n + 1 := by omega
      subst this
      rw [sumTo_fupd_oob _ (Or.inr (Nat.lt_succ_self n)), fupd_same]
      omega

namespace TaskEscrow

/-- `enum TaskStatus` of the TaskEscrow contract.  `Open` is the zero value a
fresh storage slot decodes to. -/
inductive TaskStatus
  | Open
  | InProgress
  | Completed
  | Disputed
  | Cancelled
  | Finalized
  deriving DecidableEq, Repr

/-- `enum BidStatus` of the TaskEscrow contract; `Pending` is the zero value. -/
inductive BidStatus
  | Pending
  | Accepted
  | Rejected
  | Withdrawn
  deriving DecidableEq, Repr

/-- The terminal task states (`Finalized`, `Cancelled`). -/
def TaskStatus.isTerminal : TaskStatus → Bool
  | .Cancelled => true
  | .Finalized => true
  | _ => false

/-- The statuses the spec associates with an assigned agent:
`InProgress`, `Completed`, `Disputed`, `Finalized`. -/
def TaskStatus.isAssigned : TaskStatus → Bool
  | .InProgress => true
  | .Completed => true
  | .Disputed => true
  | .Finalized => true
  | _ => false

/-- `struct Task` of the TaskEscrow contract.  Addresses are `Nat`, with `0`
standing for `address(0)`. -/
structure Task where
  id : Nat
  creator : Nat
  assignedAgent : Nat
  reward : Nat
  deadline : Nat
  status : TaskStatus
  createdAt : Nat
  completedAt : Nat
  title : String
  description : String
  deriving DecidableEq, Repr

/-- The all-zero record an unwritten `tasks[i]` storage slot decodes to. -/
def dTask : Task :=
  { id := 0, creator := 0, assignedAgent := 0, reward := 0, deadline := 0,
    status := .Open, createdAt := 0, completedAt := 0, title := "", description := "" }

/-- `struct Bid` of the TaskEscrow contract. -/
structure Bid where
  id : Nat
  taskId : Nat
  agent : Nat
  amount : Nat
  status : BidStatus
  createdAt : Nat
  message : String
  deriving DecidableEq, Repr

/-- The all-zero record an unwritten `bids[i]` storage slot decodes to. -/
def dBid : Bid :=
  { id := 0, taskId := 0, agent := 0, amount := 0, status := .Pending,
    createdAt := 0, message := "" }

/-- The contract's custom errors, together with the two revert conditions
inherited from its base contracts and the token: `NotOwner` for the
`onlyOwner` modifier of `Ownable`, `ERC20InsufficientBalance` for a
`safeTransfer`/`safeTransferFrom` whose source balance is too small. -/
inductive Err
  | NotTaskCreator
  | NotAssignedAgent
  | TaskNotExist
  | InvalidTaskStatus
  | InsufficientEscrow
  | TitleRequired
  | RewardMustBePositive
  | DeadlineMustBeInFuture
  | AmountMustBePositive
  | CreatorCannotBid
  | BidNotExist
  | BidNotPending
  | NoAgentAssigned
  | CannotCancel
  | NotAuthorized
  | InvalidPercentage
  | NotOwner
  | ERC20InsufficientBalance
  deriving DecidableEq, Repr

/-- The contract storage plus the part of the ERC20 token state it interacts
with: `held` is `paymentToken.balanceOf(address(this))`, `balances` the token
balances of external accounts. -/
structure State where
  owner : Nat
  taskCounter : Nat
  bidCounter : Nat
  tasks : Nat → Task
  bids : Nat → Bid
  taskBids : Nat → List Nat
  creatorTasks : Nat → List Nat
  agentTasks : Nat → List Nat
  deposits : Nat → Nat
  held : Nat
  balances : Nat → Nat

/-- Contract state right after the constructor ran: counters zero, every
mapping at its zero default, no tokens held.  `owner` is the deployer, `bal`
the arbitrary token balances of external accounts. -/
def initState (owner : Nat) (bal : Nat → Nat) : State :=
  { owner := owner, taskCounter := 0, bidCounter := 0,
    tasks := fun _ => dTask, bids := fun _ => dBid,
    taskBids := fun _ => [], creatorTasks := fun _ => [],
    agentTasks := fun _ => [], deposits := fun _ => 0,
    held := 0, balances := bal }

/-- `paymentToken.safeTransferFrom(caller, address(this), amount)` applied
after the caller's balance has been checked: tokens move from the caller into
the contract. -/
def collect (s : State) (caller amount : Nat) : State :=
  { s with balances := fupd s.balances caller (s.balances caller - amount),
           held := s.held + amount }

/-- `paymentToken.safeTransfer(dest, amount)` applied after the contract's
balance has been checked: tokens move from the contract to `dest`. -/
def payOut (s : State) (dest amount : Nat) : State :=
  { s with held := s.held - amount,
           balances := fupd s.balances dest (s.balances dest + amount) }

/-- `createTask(_title, _description, _reward, _deadline)`.  Returns the new
task id.  The new record inherits the unwritten slot at the fresh id for the
fields the source does not assign (`assignedAgent`, `completedAt`), exactly as
`Task storage newTask = tasks[taskCounter]` does. -/
def createTask (s : State) (caller now : Nat) (title descr : String)
    (reward deadline : Nat) : Except Err (State × Nat) :=
  if title = "" then .error .TitleRequired
  else if reward = 0 then .error .RewardMustBePositive
  else if deadline ≤ now then .error .DeadlineMustBeInFuture
  else
    let id := s.taskCounter + 1
    let newTask : Task :=
      { s.tasks id with
        id := id, creator := caller, reward := reward, deadline := deadline,
        status := .Open, title := title, description := descr, createdAt := now }
    .ok ({ s with
            taskCounter := id,
            tasks := fupd s.tasks id newTask,
            creatorTasks := fupd s.creatorTasks caller (s.creatorTasks caller ++ [id]) },
         id)

/-- `depositEscrow(_taskId, _amount)`: modifier order `taskExists`,
`taskInStatus(Open)`, then the body's amount and creator checks; the deposit is
recorded before `safeTransferFrom` is invoked. -/
def depositEscrow (s : State) (caller tid amount : Nat) : Except Err State :=
  if tid = 0 ∨ s.taskCounter < tid then .error .TaskNotExist
  else if (s.tasks tid).status ≠ .Open then .error .InvalidTaskStatus
  else if amount = 0 then .error .AmountMustBePositive
  else if (s.tasks tid).creator ≠ caller then .error .NotTaskCreator
  else
    let s1 := { s with deposits := fupd s.deposits tid (s.deposits tid + amount) }
    if s1.balances caller < amount then .error .ERC20InsufficientBalance
    else .ok (collect s1 caller amount)

/-- `submitBid(_taskId, _amount, _message)`.  Returns the new bid id. -/
def submitBid (s : State) (caller now tid amount : Nat) (message : String) :
    Except Err (State × Nat) :=
  if tid = 0 ∨ s.taskCounter < tid then .error .TaskNotExist
  else if (s.tasks tid).status ≠ .Open then .error .InvalidTaskStatus
  else if amount = 0 then .error .AmountMustBePositive
  else if (s.tasks tid).creator = caller then .error .CreatorCannotBid
  else
    let bidId := s.bidCounter + 1
    let newBid : Bid :=
      { s.bids bidId with
        id := bidId, taskId := tid, agent := caller, amount := amount,
        status := .Pending, message := message, createdAt := now }
    .ok ({ s with
            bidCounter := bidId,
            bids := fupd s.bids bidId newBid,
            taskBids := fupd s.taskBids tid (s.taskBids tid ++ [bidId]) },
         bidId)

/-- `_rejectOtherBids(bidIds, acceptedBidId, taskId)`: walk the task's bid
list and demote every still-`Pending` bid other than the accepted one to
`Rejected`. -/
def rejectOtherBids (bs : Nat → Bid) (ids : List Nat) (accepted : Nat) :
    Nat → Bid :=
  ids.foldl
    (fun f i =>
      if i ≠ accepted ∧ (f i).status = .Pending
      then fupd f i { f i with status := .Rejected }
      else f)
    bs

/-- `acceptBid(_bidId)`. -/
def acceptBid (s : State) (caller bidId : Nat) : Except Err State :=
  let bid := s.bids bidId
  if bid.id ≠ bidId then .error .BidNotExist
  else if bid.status ≠ .Pending then .error .BidNotPending
  else
    let task := s.tasks bid.taskId
    if task.creator ≠ caller then .error .NotTaskCreator
    else if task.status ≠ .Open then .error .InvalidTaskStatus
    else if s.deposits bid.taskId < bid.amount then .error .InsufficientEscrow
    else
      let bids1 := fupd s.bids bidId { bid with status := .Accepted }
      let tasks1 := fupd s.tasks bid.taskId
        { task with assignedAgent := bid.agent, reward := bid.amount,
                    status := .InProgress }
      let ids := s.taskBids bid.taskId
      let bids2 := if 1 < ids.length then rejectOtherBids bids1 ids bidId else bids1
      .ok { s with
            bids := bids2, tasks := tasks1,
            agentTasks := fupd s.agentTasks bid.agent
              (s.agentTasks bid.agent ++ [bid.taskId]) }

/-- `rejectBid(_bidId)`. -/
def rejectBid (s : State) (caller bidId : Nat) : Except Err State :=
  let bid := s.bids bidId
  if bid.id ≠ bidId then .error .BidNotExist
  else if bid.status ≠ .Pending then .error .BidNotPending
  else if (s.tasks bid.taskId).creator ≠ caller then .error .NotTaskCreator
  else .ok { s with bids := fupd s.bids bidId ({ bid with status := .Rejected }) }

/-- `withdrawBid(_bidId)`. -/
def withdrawBid (s : State) (caller bidId : Nat) : Except Err State :=
  let bid := s.bids bidId
  if bid.id ≠ bidId then .error .BidNotExist
  else if bid.status ≠ .Pending then .error .BidNotPending
  else if bid.agent ≠ caller then .error .NotAssignedAgent
  else .ok { s with bids := fupd s.bids bidId ({ bid with status := .Withdrawn }) }

/-- `completeTask(_taskId, _resultHash)`: the result hash is only emitted in an
event, never stored, so it does not appear in the resulting state. -/
def completeTask (s : State) (caller now tid : Nat) (resultHash : String) :
    Except Err State :=
  if (s.tasks tid).assignedAgent ≠ caller then .error .NotAssignedAgent
  else if (s.tasks tid).status ≠ .InProgress then .error .InvalidTaskStatus
  else
    let _ := resultHash
    let task' := { s.tasks tid with status := .Completed, completedAt := now }
    .ok { s with tasks := fupd s.tasks tid task' }

/-- `approveAndRelease(_taskId)`: the escrow entry is zeroed and the status set
to `Finalized` before either transfer runs (checks-effects-interactions). -/
def approveAndRelease (s : State) (caller tid : Nat) : Except Err State :=
  if (s.tasks tid).creator ≠ caller then .error .NotTaskCreator
  else if (s.tasks tid).status ≠ .Completed then .error .InvalidTaskStatus
  else
    let task := s.tasks tid
    let paymentAmount := s.deposits tid
    if paymentAmount < task.reward then .error .InsufficientEscrow
    else if task.assignedAgent = 0 then .error .NoAgentAssigned
    else
      let s1 := { s with deposits := fupd s.deposits tid 0,
                         tasks := fupd s.tasks tid ({ task with status := .Finalized }) }
      if s1.held < task.reward then .error .ERC20InsufficientBalance
      else
        let s2 := payOut s1 task.assignedAgent task.reward
        if task.reward < paymentAmount then
          if s2.held < paymentAmount - task.reward then .error .ERC20InsufficientBalance
          else .ok (payOut s2 task.creator (paymentAmount - task.reward))
        else .ok s2

/-- `raiseDispute(_taskId)`. -/
def raiseDispute (s : State) (caller tid : Nat) : Except Err State :=
  if tid = 0 ∨ s.taskCounter < tid then .error .TaskNotExist
  else if caller ≠ (s.tasks tid).creator ∧ caller ≠ (s.tasks tid).assignedAgent then
    .error .NotAuthorized
  else if (s.tasks tid).status ≠ .InProgress ∧ (s.tasks tid).status ≠ .Completed then
    .error .InvalidTaskStatus
  else .ok { s with tasks := fupd s.tasks tid ({ s.tasks tid with status := .Disputed }) }

/-- `resolveDispute(_taskId, _winner, _creatorPercent)`: `winner` is advisory
metadata for the emitted event only and has no effect on the state. -/
def resolveDispute (s : State) (caller tid winner pct : Nat) : Except Err State :=
  if caller ≠ s.owner then .error .NotOwner
  else if (s.tasks tid).status ≠ .Disputed then .error .InvalidTaskStatus
  else if 100 < pct then .error .InvalidPercentage
  else
    let _ := winner
    let task := s.tasks tid
    let totalDeposit := s.deposits tid
    let s1 := { s with deposits := fupd s.deposits tid 0,
                       tasks := fupd s.tasks tid ({ task with status := .Finalized }) }
    let creatorAmount := totalDeposit * pct / 100
    let agentAmount := totalDeposit - creatorAmount
    if 0 < creatorAmount then
      if s1.held < creatorAmount then .error .ERC20InsufficientBalance
      else
        let s2 := payOut s1 task.creator creatorAmount
        if 0 < agentAmount ∧ task.assignedAgent ≠ 0 then
          if s2.held < agentAmount then .error .ERC20InsufficientBalance
          else .ok (payOut s2 task.assignedAgent agentAmount)
        else .ok s2
    else
      if 0 < agentAmount ∧ task.assignedAgent ≠ 0 then
        if s1.held < agentAmount then .error .ERC20InsufficientBalance
        else .ok (payOut s1 task.assignedAgent agentAmount)
      else .ok s1

/-- `cancelTask(_taskId)`. -/
def cancelTask (s : State) (caller tid : Nat) : Except Err State :=
  if (s.tasks tid).creator ≠ caller then .error .NotTaskCreator
  else if (s.tasks tid).status ≠ .Open ∧ (s.tasks tid).status ≠ .InProgress then
    .error .CannotCancel
  else
    let task := s.tasks tid
    let refundAmount := s.deposits tid
    let s1 := { s with deposits := fupd s.deposits tid 0,
                       tasks := fupd s.tasks tid ({ task with status := .Cancelled }) }
    if 0 < refundAmount then
      if s1.held < refundAmount then .error .ERC20InsufficientBalance
      else .ok (payOut s1 task.creator refundAmount)
    else .ok s1

/-- Reachable contract states: the initial state after deployment, plus the
result of any successful external call.  `caller ≠ 0` reflects that no EVM
transaction originates from `address(0)`. -/
inductive Reach : State → Prop
  | init (owner : Nat) (bal : Nat → Nat) : Reach (initState owner bal)
  | stepCreateTask {s s' : State} {caller now reward deadline id : Nat}
      {title descr : String} :
      Reach s → caller ≠ 0 →
      createTask s caller now title descr reward deadline = .ok (s', id) → Reach s'
  | stepDepositEscrow {s s' : State} {caller tid amount : Nat} :
      Reach s → caller ≠ 0 →
      depositEscrow s caller tid amount = .ok s' → Reach s'
  | stepSubmitBid {s s' : State} {caller now tid amount bidId : Nat} {message : String} :
      Reach s → caller ≠ 0 →
      submitBid s caller now tid amount message = .ok (s', bidId) → Reach s'
  | stepAcceptBid {s s' : State} {caller bidId : Nat} :
      Reach s → caller ≠ 0 →
      acceptBid s caller bidId = .ok s' → Reach s'
  | stepRejectBid {s s' : State} {caller bidId : Nat} :
      Reach s → caller ≠ 0 →
      rejectBid s caller bidId = .ok s' → Reach s'
  | stepWithdrawBid {s s' : State} {caller bidId : Nat} :
      Reach s → caller ≠ 0 →
      withdrawBid s caller bidId = .ok s' → Reach s'
  | stepCompleteTask {s s' : State} {caller now tid : Nat} {resultHash : String} :
      Reach s → caller ≠ 0 →
      completeTask s caller now tid resultHash = .ok s' → Reach s'
  | stepApproveAndRelease {s s' : State} {caller tid : Nat} :
      Reach s → caller ≠ 0 →
      approveAndRelease s caller tid = .ok s' → Reach s'
  | stepRaiseDispute {s s' : State} {caller tid : Nat} :
      Reach s → caller ≠ 0 →
      raiseDispute s caller tid = .ok s' → Reach s'
  | stepResolveDispute {s s' : State} {caller tid winner pct : Nat} :
      Reach s → caller ≠ 0 →
      resolveDispute s caller tid winner pct = .ok s' → Reach s'
  | stepCancelTask {s s' : State} {caller tid : Nat} :
      Reach s → caller ≠ 0 →
      cancelTask s caller tid = .ok s' → Reach s'

/-- Pointwise description of `_rejectOtherBids`: a bid changes exactly when it
is in the walked list, is not the accepted bid, and is still `Pending`; then
only its status changes, to `Rejected`. -/
theorem rejectOtherBids_eq (ids : List Nat) (bs : Nat → Bid) (acc b : Nat) :
    rejectOtherBids bs ids acc b =
      if b ∈ ids ∧ b ≠ acc ∧ (bs b).status = .Pending
      then { bs b with status := .Rejected }
      else bs b := by
  induction ids generalizing bs with
  | nil => simp [rejectOtherBids]
  | cons i rest ih =>
    have hfold : rejectOtherBids bs (i :: rest) acc =
        rejectOtherBids
          (if i ≠ acc ∧ (bs i).status = .Pending
           then fupd bs i { bs i with status := .Rejected } else bs) rest acc := rfl
    rw [hfold]
    by_cases hi : i ≠ acc ∧ (bs i).status = .Pending
    · rw [if_pos hi, ih]
      by_cases hbi : b = i
      · subst hbi
        rw [fupd_same]
        have hne : ({ bs b with status := BidStatus.Rejected } : Bid).status ≠ .Pending := by
          simp
        rw [if_neg (by simp [hne]), if_pos (by simp [hi.1, hi.2])]
      · rw [fupd_other _ _ hbi]
        simp [List.mem_cons, hbi]
    · rw [if_neg hi, ih]
      by_cases hbi : b = i
      · subst hbi
        rw [if_neg (by tauto), if_neg (by tauto)]
      · simp [List.mem_cons, hbi]

/-- The inductive invariant of the TaskEscrow contract, covering value
conservation, the status/agent relationship, bid bookkeeping and the
single-accepted-bid property. -/
structure Inv (s : State) : Prop where
  task_oob : ∀ t, t = 0 ∨ s.taskCounter < t → s.tasks t = dTask
  dep_oob : ∀ t, t = 0 ∨ s.taskCounter < t → s.deposits t = 0
  taskBids_oob : ∀ t, t = 0 ∨ s.taskCounter < t → s.taskBids t = []
  task_id : ∀ t, 1 ≤ t → t ≤ s.taskCounter → (s.tasks t).id = t
  creator_nz : ∀ t, 1 ≤ t → t ≤ s.taskCounter → (s.tasks t).creator ≠ 0
  terminal_dep : ∀ t, (s.tasks t).status.isTerminal = true → s.deposits t = 0
  held_eq : s.held = sumTo s.deposits s.taskCounter
  assigned_nz : ∀ t, (s.tasks t).status.isAssigned = true →
    (s.tasks t).assignedAgent ≠ 0
  open_agent : ∀ t, (s.tasks t).status = .Open → (s.tasks t).assignedAgent = 0
  agent_ne_creator : ∀ t, (s.tasks t).assignedAgent ≠ 0 →
    (s.tasks t).assignedAgent ≠ (s.tasks t).creator
  inprog_dep : ∀ t, ((s.tasks t).status = .InProgress ∨
      (s.tasks t).status = .Completed ∨ (s.tasks t).status = .Disputed) →
    (s.tasks t).reward ≤ s.deposits t
  bid_oob : ∀ b, b = 0 ∨ s.bidCounter < b → s.bids b = dBid
  bid_id : ∀ b, 1 ≤ b → b ≤ s.bidCounter → (s.bids b).id = b
  bid_agent_nz : ∀ b, 1 ≤ b → b ≤ s.bidCounter → (s.bids b).agent ≠ 0
  bid_tid_range : ∀ b, 1 ≤ b → b ≤ s.bidCounter →
    1 ≤ (s.bids b).taskId ∧ (s.bids b).taskId ≤ s.taskCounter
  bid_agent_ne_creator : ∀ b, 1 ≤ b → b ≤ s.bidCounter →
    (s.bids b).agent ≠ (s.tasks (s.bids b).taskId).creator
  bid_mem : ∀ b, 1 ≤ b → b ≤ s.bidCounter → b ∈ s.taskBids (s.bids b).taskId
  taskBids_mem : ∀ t b, b ∈ s.taskBids t →
    1 ≤ b ∧ b ≤ s.bidCounter ∧ (s.bids b).taskId = t
  open_no_accepted : ∀ t b, (s.tasks t).status = .Open → b ∈ s.taskBids t →
    (s.bids b).status ≠ .Accepted
  accepted_unique : ∀ t b1 b2, b1 ∈ s.taskBids t → b2 ∈ s.taskBids t →
    (s.bids b1).status = .Accepted → (s.bids b2).status = .Accepted → b1 = b2

theorem inv_init (owner : Nat) (bal : Nat → Nat) : Inv (initState owner bal) := by
  have hsum : sumTo (fun _ => (0 : Nat)) 0 = 0 := rfl
  refine ⟨?_, ?_, ?_, ?_, ?_, ?_, ?_, ?_, ?_, ?_, ?_, ?_, ?_, ?_, ?_, ?_, ?_, ?_, ?_, ?_⟩ <;>
    intros <;>
    first
      | rfl
      | omega
      | simp_all [initState, dTask, dBid, TaskStatus.isTerminal, TaskStatus.isAssigned]

/-- The fresh task record written by a successful `createTask`. -/
def newTaskRec (s : State) (caller now : Nat) (title descr : String)
    (reward deadline : Nat) : Task :=
  { s.tasks (s.taskCounter + 1) with
    id := s.taskCounter + 1, creator := caller, reward := reward,
    deadline := deadline, status := .Open, title := title,
    description := descr, createdAt := now }

/-- Successful `createTask` characterised componentwise. -/
theorem createTask_ok {s : State} {caller now reward deadline : Nat}
    {title descr : String} {s' : State} {id : Nat}
    (h : createTask s caller now title descr reward deadline = .ok (s', id)) :
    title ≠ "" ∧ reward ≠ 0 ∧ now < deadline ∧ id = s.taskCounter + 1 ∧
    s'.owner = s.owner ∧
    s'.taskCounter = s.taskCounter + 1 ∧
    s'.bidCounter = s.bidCounter ∧
    s'.tasks = fupd s.tasks (s.taskCounter + 1)
      (newTaskRec s caller now title descr reward deadline) ∧
    s'.bids = s.bids ∧
    s'.taskBids = s.taskBids ∧
    s'.deposits = s.deposits ∧
    s'.held = s.held ∧
    s'.balances = s.balances := by
  unfold createTask at h
  split at h
  · exact absurd h (by simp)
  · split at h
    · exact absurd h (by simp)
    · split at h
      · exact absurd h (by simp)
      · simp only [Except.ok.injEq, Prod.mk.injEq] at h
        obtain ⟨hEq, hid⟩ := h
        refine ⟨by assumption, by assumption, by omega, hid.symm,
          ?_, ?_, ?_, ?_, ?_, ?_, ?_, ?_, ?_⟩ <;> (rw [← hEq]; try rfl)

theorem inv_createTask {s s' : State} {caller now reward deadline id : Nat}
    {title descr : String} (hInv : Inv s) (hc : caller ≠ 0)
    (h : createTask s caller now title descr reward deadline = .ok (s', id)) :
    Inv s' := by
  obtain ⟨ht, hr, hd, hid, hOw, hTC, hBC, hTasks, hBids, hTB, hDep, hHeld, hBal⟩ :=
    createTask_ok h
  have hagent0 : (s.tasks (s.taskCounter + 1)).assignedAgent = 0 := by
    rw [hInv.task_oob _ (Or.inr (Nat.lt_succ_self _))]
    rfl
  have hnew : ∀ t, t ≠ s.taskCounter + 1 → s'.tasks t = s.tasks t := by
    intro t hne
    rw [hTasks, fupd_other _ _ hne]
  have hnewT : s'.tasks (s.taskCounter + 1) =
      newTaskRec s caller now title descr reward deadline := by
    rw [hTasks, fupd_same]
  refine ⟨?_, ?_, ?_, ?_, ?_, ?_, ?_, ?_, ?_, ?_, ?_, ?_, ?_, ?_, ?_, ?_, ?_, ?_, ?_, ?_⟩
  · intro t htt
    rw [hTC] at htt
    rw [hnew t (by omega)]
    exact hInv.task_oob t (by omega)
  · intro t htt
    rw [hTC] at htt
    rw [hDep]
    exact hInv.dep_oob t (by omega)
  · intro t htt
    rw [hTC] at htt
    rw [hTB]
    exact hInv.taskBids_oob t (by omega)
  · intro t h1 h2
    rw [hTC] at h2
    by_cases hteq : t = s.taskCounter + 1
    · subst hteq
      rw [hnewT]
      rfl
    · rw [hnew t hteq]
      exact hInv.task_id t h1 (by omega)
  · intro t h1 h2
    rw [hTC] at h2
    by_cases hteq : t = s.taskCounter + 1
    · subst hteq
      rw [hnewT]
      exact hc
    · rw [hnew t hteq]
      exact hInv.creator_nz t h1 (by omega)
  · intro t hterm
    rw [hDep]
    by_cases hteq : t = s.taskCounter + 1
    · subst hteq
      rw [hnewT] at hterm
      simp [newTaskRec, TaskStatus.isTerminal] at hterm
    · rw [hnew t hteq] at hterm
      exact hInv.terminal_dep t hterm
  · rw [hHeld, hDep, hTC]
    simp only [sumTo]
    rw [← hInv.held_eq, hInv.dep_oob (s.taskCounter + 1) (Or.inr (Nat.lt_succ_self _))]
    omega
  · intro t hass
    by_cases hteq : t = s.taskCounter + 1
    · subst hteq
      rw [hnewT] at hass
      simp [newTaskRec, TaskStatus.isAssigned] at hass
    · rw [hnew t hteq] at hass ⊢
      exact hInv.assigned_nz t hass
  · intro t hst
    by_cases hteq : t = s.taskCounter + 1
    · subst hteq
      rw [hnewT]
      exact hagent0
    · rw [hnew t hteq] at hst ⊢
      exact hInv.open_agent t hst
  · intro t hnz
    by_cases hteq : t = s.taskCounter + 1
    · subst hteq
      rw [hnewT] at hnz
      exact absurd hagent0 hnz
    · rw [hnew t hteq] at hnz ⊢
      exact hInv.agent_ne_creator t hnz
  · intro t hst
    rw [hDep]
    by_cases hteq : t = s.taskCounter + 1
    · subst hteq
      rw [hnewT] at hst
      simp [newTaskRec] at hst
    · rw [hnew t hteq] at hst ⊢
      exact hInv.inprog_dep t hst
  · intro b hb
    rw [hBC] at hb
    rw [hBids]
    exact hInv.bid_oob b hb
  · intro b h1 h2
    rw [hBC] at h2
    rw [hBids]
    exact hInv.bid_id b h1 h2
  · intro b h1 h2
    rw [hBC] at h2
    rw [hBids]
    exact hInv.bid_agent_nz b h1 h2
  · intro b h1 h2
    rw [hBC] at h2
    rw [hBids, hTC]
    have := hInv.bid_tid_range b h1 h2
    omega
  · intro b h1 h2
    rw [hBC] at h2
    rw [hBids]
    rw [hnew _ (by have := hInv.bid_tid_range b h1 h2; omega)]
    exact hInv.bid_agent_ne_creator b h1 h2
  · intro b h1 h2
    rw [hBC] at h2
    rw [hBids, hTB]
    exact hInv.bid_mem b h1 h2
  · intro t b hmem
    rw [hTB] at hmem
    rw [hBC, hBids]
    exact hInv.taskBids_mem t b hmem
  · intro t b hst hmem
    rw [hTB] at hmem
    rw [hBids]
    by_cases hteq : t = s.taskCounter + 1
    · subst hteq
      rw [hInv.taskBids_oob _ (Or.inr (Nat.lt_succ_self _))] at hmem
      simp at hmem
    · rw [hnew t hteq] at hst
      exact hInv.open_no_accepted t b hst hmem
  · intro t b1 b2 hm1 hm2 ha1 ha2
    rw [hTB] at hm1 hm2
    rw [hBids] at ha1 ha2
    exact hInv.accepted_unique t b1 b2 hm1 hm2 ha1 ha2

/-- Successful `depositEscrow` characterised componentwise. -/
theorem depositEscrow_ok {s s' : State} {caller tid amount : Nat}
    (h : depositEscrow s caller tid amount = .ok s') :
    1 ≤ tid ∧ tid ≤ s.taskCounter ∧ (s.tasks tid).status = .Open ∧ amount ≠ 0 ∧
    (s.tasks tid).creator = caller ∧ amount ≤ s.balances caller ∧
    s'.owner = s.owner ∧ s'.taskCounter = s.taskCounter ∧
    s'.bidCounter = s.bidCounter ∧ s'.tasks = s.tasks ∧ s'.bids = s.bids ∧
    s'.taskBids = s.taskBids ∧
    s'.deposits = fupd s.deposits tid (s.deposits tid + amount) ∧
    s'.held = s.held + amount ∧
    s'.balances = fupd s.balances caller (s.balances caller - amount) := by
  unfold depositEscrow at h
  dsimp only at h
  by_cases c1 : tid = 0 ∨ s.taskCounter < tid
  · rw [if_pos c1] at h
    exact absurd h (by simp)
  rw [if_neg c1] at h
  by_cases c2 : (s.tasks tid).status ≠ .Open
  · rw [if_pos c2] at h
    exact absurd h (by simp)
  rw [if_neg c2] at h
  by_cases c3 : amount = 0
  · rw [if_pos c3] at h
    exact absurd h (by simp)
  rw [if_neg c3] at h
  by_cases c4 : (s.tasks tid).creator ≠ caller
  · rw [if_pos c4] at h
    exact absurd h (by simp)
  rw [if_neg c4] at h
  by_cases c5 : s.balances caller < amount
  · rw [if_pos c5] at h
    exact absurd h (by simp)
  rw [if_neg c5] at h
  simp only [Except.ok.injEq] at h
  push_neg at c2 c4
  refine ⟨by omega, by omega, c2, c3, c4, by omega, ?_, ?_, ?_, ?_, ?_, ?_, ?_, ?_, ?_⟩ <;>
    (rw [← h]; try rfl)


/-- The fresh bid record written by a successful `submitBid`. -/
def newBidRec (s : State) (caller now tid amount : Nat) (message : String) : Bid :=
  { s.bids (s.bidCounter + 1) with
    id := s.bidCounter + 1, taskId := tid, agent := caller, amount := amount,
    status := .Pending, message := message, createdAt := now }

/-- Successful `submitBid` characterised componentwise. -/
theorem submitBid_ok {s s' : State} {caller now tid amount bidId : Nat}
    {message : String}
    (h : submitBid s caller now tid amount message = .ok (s', bidId)) :
    1 ≤ tid ∧ tid ≤ s.taskCounter ∧ (s.tasks tid).status = .Open ∧ amount ≠ 0 ∧
    (s.tasks tid).creator ≠ caller ∧ bidId = s.bidCounter + 1 ∧
    s'.owner = s.owner ∧ s'.taskCounter = s.taskCounter ∧
    s'.bidCounter = s.bidCounter + 1 ∧ s'.tasks = s.tasks ∧
    s'.bids = fupd s.bids (s.bidCounter + 1) (newBidRec s caller now tid amount message) ∧
    s'.taskBids = fupd s.taskBids tid (s.taskBids tid ++ [s.bidCounter + 1]) ∧
    s'.deposits = s.deposits ∧ s'.held = s.held ∧ s'.balances = s.balances := by
  unfold submitBid at h
  dsimp only at h
  by_cases c1 : tid = 0 ∨ s.taskCounter < tid
  · rw [if_pos c1] at h
    exact absurd h (by simp)
  rw [if_neg c1] at h
  by_cases c2 : (s.tasks tid).status ≠ .Open
  · rw [if_pos c2] at h
    exact absurd h (by simp)
  rw [if_neg c2] at h
  by_cases c3 : amount = 0
  · rw [if_pos c3] at h
    exact absurd h (by simp)
  rw [if_neg c3] at h
  by_cases c4 : (s.tasks tid).creator = caller
  · rw [if_pos c4] at h
    exact absurd h (by simp)
  rw [if_neg c4] at h
  simp only [Except.ok.injEq, Prod.mk.injEq] at h
  obtain ⟨hEq, hid⟩ := h
  push_neg at c2
  refine ⟨by omega, by omega, c2, c3, c4, hid.symm,
    ?_, ?_, ?_, ?_, ?_, ?_, ?_, ?_, ?_⟩ <;> (rw [← hEq]; try rfl)

/-- Successful `acceptBid` characterised componentwise. -/
theorem acceptBid_ok {s s' : State} {caller bidId : Nat}
    (h : acceptBid s caller bidId = .ok s') :
    (s.bids bidId).id = bidId ∧ (s.bids bidId).status = .Pending ∧
    (s.tasks (s.bids bidId).taskId).creator = caller ∧
    (s.tasks (s.bids bidId).taskId).status = .Open ∧
    (s.bids bidId).amount ≤ s.deposits (s.bids bidId).taskId ∧
    s'.owner = s.owner ∧ s'.taskCounter = s.taskCounter ∧
    s'.bidCounter = s.bidCounter ∧
    s'.tasks = fupd s.tasks (s.bids bidId).taskId
      ({ s.tasks (s.bids bidId).taskId with
         assignedAgent := (s.bids bidId).agent, reward := (s.bids bidId).amount,
         status := .InProgress }) ∧
    s'.bids = (if 1 < (s.taskBids (s.bids bidId).taskId).length
               then rejectOtherBids
                 (fupd s.bids bidId ({ s.bids bidId with status := .Accepted }))
                 (s.taskBids (s.bids bidId).taskId) bidId
               else fupd s.bids bidId ({ s.bids bidId with status := .Accepted })) ∧
    s'.taskBids = s.taskBids ∧ s'.deposits = s.deposits ∧ s'.held = s.held ∧
    s'.balances = s.balances := by
  unfold acceptBid at h
  dsimp only at h
  by_cases c1 : (s.bids bidId).id ≠ bidId
  · rw [if_pos c1] at h
    exact absurd h (by simp)
  rw [if_neg c1] at h
  by_cases c2 : (s.bids bidId).status ≠ .Pending
  · rw [if_pos c2] at h
    exact absurd h (by simp)
  rw [if_neg c2] at h
  by_cases c3 : (s.tasks (s.bids bidId).taskId).creator ≠ caller
  · rw [if_pos c3] at h
    exact absurd h (by simp)
  rw [if_neg c3] at h
  by_cases c4 : (s.tasks (s.bids bidId).taskId).status ≠ .Open
  · rw [if_pos c4] at h
    exact absurd h (by simp)
  rw [if_neg c4] at h
  by_cases c5 : s.deposits (s.bids bidId).taskId < (s.bids bidId).amount
  · rw [if_pos c5] at h
    exact absurd h (by simp)
  rw [if_neg c5] at h
  simp only [Except.ok.injEq] at h
  push_neg at c1 c2 c3 c4
  refine ⟨c1, c2, c3, c4, by omega, ?_, ?_, ?_, ?_, ?_, ?_, ?_, ?_, ?_⟩ <;>
    (rw [← h]; try rfl)

/-- Successful `rejectBid` characterised componentwise. -/
theorem rejectBid_ok {s s' : State} {caller bidId : Nat}
    (h : rejectBid s caller bidId = .ok s') :
    (s.bids bidId).id = bidId ∧ (s.bids bidId).status = .Pending ∧
    (s.tasks (s.bids bidId).taskId).creator = caller ∧
    s'.owner = s.owner ∧ s'.taskCounter = s.taskCounter ∧
    s'.bidCounter = s.bidCounter ∧ s'.tasks = s.tasks ∧
    s'.bids = fupd s.bids bidId ({ s.bids bidId with status := .Rejected }) ∧
    s'.taskBids = s.taskBids ∧ s'.deposits = s.deposits ∧ s'.held = s.held ∧
    s'.balances = s.balances := by
  unfold rejectBid at h
  dsimp only at h
  by_cases c1 : (s.bids bidId).id ≠ bidId
  · rw [if_pos c1] at h
    exact absurd h (by simp)
  rw [if_neg c1] at h
  by_cases c2 : (s.bids bidId).status ≠ .Pending
  · rw [if_pos c2] at h
    exact absurd h (by simp)
  rw [if_neg c2] at h
  by_cases c3 : (s.tasks (s.bids bidId).taskId).creator ≠ caller
  · rw [if_pos c3] at h
    exact absurd h (by simp)
  rw [if_neg c3] at h
  simp only [Except.ok.injEq] at h
  push_neg at c1 c2 c3
  refine ⟨c1, c2, c3, ?_, ?_, ?_, ?_, ?_, ?_, ?_, ?_, ?_⟩ <;> (rw [← h]; try rfl)

/-- Successful `withdrawBid` characterised componentwise. -/
theorem withdrawBid_ok {s s' : State} {caller bidId : Nat}
    (h : withdrawBid s caller bidId = .ok s') :
    (s.bids bidId).id = bidId ∧ (s.bids bidId).status = .Pending ∧
    (s.bids bidId).agent = caller ∧
    s'.owner = s.owner ∧ s'.taskCounter = s.taskCounter ∧
    s'.bidCounter = s.bidCounter ∧ s'.tasks = s.tasks ∧
    s'.bids = fupd s.bids bidId ({ s.bids bidId with status := .Withdrawn }) ∧
    s'.taskBids = s.taskBids ∧ s'.deposits = s.deposits ∧ s'.held = s.held ∧
    s'.balances = s.balances := by
  unfold withdrawBid at h
  dsimp only at h
  by_cases c1 : (s.bids bidId).id ≠ bidId
  · rw [if_pos c1] at h
    exact absurd h (by simp)
  rw [if_neg c1] at h
  by_cases c2 : (s.bids bidId).status ≠ .Pending
  · rw [if_pos c2] at h
    exact absurd h (by simp)
  rw [if_neg c2] at h
  by_cases c3 : (s.bids bidId).agent ≠ caller
  · rw [if_pos c3] at h
    exact absurd h (by simp)
  rw [if_neg c3] at h
  simp only [Except.ok.injEq] at h
  push_neg at c1 c2 c3
  refine ⟨c1, c2, c3, ?_, ?_, ?_, ?_, ?_, ?_, ?_, ?_, ?_⟩ <;> (rw [← h]; try rfl)

/-- Successful `completeTask` characterised componentwise. -/
theorem completeTask_ok {s s' : State} {caller now tid : Nat} {resultHash : String}
    (h : completeTask s caller now tid resultHash = .ok s') :
    (s.tasks tid).assignedAgent = caller ∧ (s.tasks tid).status = .InProgress ∧
    s'.owner = s.owner ∧ s'.taskCounter = s.taskCounter ∧
    s'.bidCounter = s.bidCounter ∧
    s'.tasks = fupd s.tasks tid
      ({ s.tasks tid with status := .Completed, completedAt := now }) ∧
    s'.bids = s.bids ∧ s'.taskBids = s.taskBids ∧ s'.deposits = s.deposits ∧
    s'.held = s.held ∧ s'.balances = s.balances := by
  unfold completeTask at h
  dsimp only at h
  by_cases c1 : (s.tasks tid).assignedAgent ≠ caller
  · rw [if_pos c1] at h
    exact absurd h (by simp)
  rw [if_neg c1] at h
  by_cases c2 : (s.tasks tid).status ≠ .InProgress
  · rw [if_pos c2] at h
    exact absurd h (by simp)
  rw [if_neg c2] at h
  simp only [Except.ok.injEq] at h
  push_neg at c1 c2
  refine ⟨c1, c2, ?_, ?_, ?_, ?_, ?_, ?_, ?_, ?_, ?_⟩ <;> (rw [← h]; try rfl)

/-- Successful `raiseDispute` characterised componentwise. -/
theorem raiseDispute_ok {s s' : State} {caller tid : Nat}
    (h : raiseDispute s caller tid = .ok s') :
    1 ≤ tid ∧ tid ≤ s.taskCounter ∧
    (caller = (s.tasks tid).creator ∨ caller = (s.tasks tid).assignedAgent) ∧
    ((s.tasks tid).status = .InProgress ∨ (s.tasks tid).status = .Completed) ∧
    s'.owner = s.owner ∧ s'.taskCounter = s.taskCounter ∧
    s'.bidCounter = s.bidCounter ∧
    s'.tasks = fupd s.tasks tid ({ s.tasks tid with status := .Disputed }) ∧
    s'.bids = s.bids ∧ s'.taskBids = s.taskBids ∧ s'.deposits = s.deposits ∧
    s'.held = s.held ∧ s'.balances = s.balances := by
  unfold raiseDispute at h
  dsimp only at h
  by_cases c1 : tid = 0 ∨ s.taskCounter < tid
  · rw [if_pos c1] at h
    exact absurd h (by simp)
  rw [if_neg c1] at h
  by_cases c2 : caller ≠ (s.tasks tid).creator ∧ caller ≠ (s.tasks tid).assignedAgent
  · rw [if_pos c2] at h
    exact absurd h (by simp)
  rw [if_neg c2] at h
  by_cases c3 : (s.tasks tid).status ≠ .InProgress ∧ (s.tasks tid).status ≠ .Completed
  · rw [if_pos c3] at h
    exact absurd h (by simp)
  rw [if_neg c3] at h
  simp only [Except.ok.injEq] at h
  push_neg at c2 c3
  refine ⟨by omega, by omega, by tauto, by tauto,
    ?_, ?_, ?_, ?_, ?_, ?_, ?_, ?_, ?_⟩ <;> (rw [← h]; try rfl)

/-- Successful `approveAndRelease` characterised componentwise.  The two
transfers are folded into one balances description; the no-surplus branch
coincides with it because the surplus is then zero. -/
theorem approveAndRelease_ok {s s' : State} {caller tid : Nat}
    (h : approveAndRelease s caller tid = .ok s') :
    (s.tasks tid).creator = caller ∧ (s.tasks tid).status = .Completed ∧
    (s.tasks tid).reward ≤ s.deposits tid ∧ (s.tasks tid).assignedAgent ≠ 0 ∧
    s.deposits tid ≤ s.held ∧
    s'.owner = s.owner ∧ s'.taskCounter = s.taskCounter ∧
    s'.bidCounter = s.bidCounter ∧
    s'.tasks = fupd s.tasks tid ({ s.tasks tid with status := .Finalized }) ∧
    s'.bids = s.bids ∧ s'.taskBids = s.taskBids ∧
    s'.deposits = fupd s.deposits tid 0 ∧
    s'.held = s.held - s.deposits tid ∧
    s'.balances =
      (fun b1 => fupd b1 (s.tasks tid).creator
        (b1 (s.tasks tid).creator + (s.deposits tid - (s.tasks tid).reward)))
      (fupd s.balances (s.tasks tid).assignedAgent
        (s.balances (s.tasks tid).assignedAgent + (s.tasks tid).reward)) := by
  unfold approveAndRelease at h
  dsimp only [payOut] at h
  by_cases c1 : (s.tasks tid).creator ≠ caller
  · rw [if_pos c1] at h
    exact absurd h (by simp)
  rw [if_neg c1] at h
  by_cases c2 : (s.tasks tid).status ≠ .Completed
  · rw [if_pos c2] at h
    exact absurd h (by simp)
  rw [if_neg c2] at h
  by_cases c3 : s.deposits tid < (s.tasks tid).reward
  · rw [if_pos c3] at h
    exact absurd h (by simp)
  rw [if_neg c3] at h
  by_cases c4 : (s.tasks tid).assignedAgent = 0
  · rw [if_pos c4] at h
    exact absurd h (by simp)
  rw [if_neg c4] at h
  by_cases c5 : s.held < (s.tasks tid).reward
  · rw [if_pos c5] at h
    exact absurd h (by simp)
  rw [if_neg c5] at h
  push_neg at c1 c2 c3 c5
  by_cases c6 : (s.tasks tid).reward < s.deposits tid
  · rw [if_pos c6] at h
    by_cases c7 : s.held - (s.tasks tid).reward < s.deposits tid - (s.tasks tid).reward
    · rw [if_pos c7] at h
      exact absurd h (by simp)
    rw [if_neg c7] at h
    simp only [Except.ok.injEq] at h
    push_neg at c7
    refine ⟨c1, c2, c3, c4, by omega, ?_, ?_, ?_, ?_, ?_, ?_, ?_, ?_, ?_⟩ <;>
      (rw [← h]; try rfl)
    show s.held - (s.tasks tid).reward - (s.deposits tid - (s.tasks tid).reward) =
      s.held - s.deposits tid
    omega
  · rw [if_neg c6] at h
    simp only [Except.ok.injEq] at h
    push_neg at c6
    have hpr : s.deposits tid = (s.tasks tid).reward := by omega
    refine ⟨c1, c2, c3, c4, by omega, ?_, ?_, ?_, ?_, ?_, ?_, ?_, ?_, ?_⟩ <;>
      (rw [← h]; try rfl)
    · show s.held - (s.tasks tid).reward = s.held - s.deposits tid
      omega
    · show fupd s.balances (s.tasks tid).assignedAgent
          (s.balances (s.tasks tid).assignedAgent + (s.tasks tid).reward) =
        (fun b1 => fupd b1 (s.tasks tid).creator
          (b1 (s.tasks tid).creator + (s.deposits tid - (s.tasks tid).reward)))
        (fupd s.balances (s.tasks tid).assignedAgent
          (s.balances (s.tasks tid).assignedAgent + (s.tasks tid).reward))
      have h0 : s.deposits tid - (s.tasks tid).reward = 0 := by omega
      simp only [h0, Nat.add_zero, fupd_self]

/-- Successful `cancelTask` characterised componentwise.  The no-refund branch
coincides with the folded balances description because the refund is zero. -/
theorem cancelTask_ok {s s' : State} {caller tid : Nat}
    (h : cancelTask s caller tid = .ok s') :
    (s.tasks tid).creator = caller ∧
    ((s.tasks tid).status = .Open ∨ (s.tasks tid).status = .InProgress) ∧
    s.deposits tid ≤ s.held ∧
    s'.owner = s.owner ∧ s'.taskCounter = s.taskCounter ∧
    s'.bidCounter = s.bidCounter ∧
    s'.tasks = fupd s.tasks tid ({ s.tasks tid with status := .Cancelled }) ∧
    s'.bids = s.bids ∧ s'.taskBids = s.taskBids ∧
    s'.deposits = fupd s.deposits tid 0 ∧
    s'.held = s.held - s.deposits tid ∧
    s'.balances = fupd s.balances (s.tasks tid).creator
      (s.balances (s.tasks tid).creator + s.deposits tid) := by
  unfold cancelTask at h
  dsimp only [payOut] at h
  by_cases c1 : (s.tasks tid).creator ≠ caller
  · rw [if_pos c1] at h
    exact absurd h (by simp)
  rw [if_neg c1] at h
  by_cases c2 : (s.tasks tid).status ≠ .Open ∧ (s.tasks tid).status ≠ .InProgress
  · rw [if_pos c2] at h
    exact absurd h (by simp)
  rw [if_neg c2] at h
  push_neg at c1 c2
  by_cases c3 : 0 < s.deposits tid
  · rw [if_pos c3] at h
    by_cases c4 : s.held < s.deposits tid
    · rw [if_pos c4] at h
      exact absurd h (by simp)
    rw [if_neg c4] at h
    simp only [Except.ok.injEq] at h
    push_neg at c4
    refine ⟨c1, by tauto, c4, ?_, ?_, ?_, ?_, ?_, ?_, ?_, ?_, ?_⟩ <;>
      (rw [← h]; try rfl)
  · rw [if_neg c3] at h
    simp only [Except.ok.injEq] at h
    have h0 : s.deposits tid = 0 := by omega
    refine ⟨c1, by tauto, by omega, ?_, ?_, ?_, ?_, ?_, ?_, ?_, ?_, ?_⟩ <;>
      (rw [← h]; try rfl)
    · show s.held = s.held - s.deposits tid
      omega
    · show s.balances = fupd s.balances (s.tasks tid).creator
        (s.balances (s.tasks tid).creator + s.deposits tid)
      simp only [h0, Nat.add_zero, fupd_self]

/-- Successful `resolveDispute` characterised componentwise, under the
assumption (true in every reachable state with a `Disputed` task) that the
disputed task has a nonzero assigned agent.  Skipped zero-amount transfers
coincide with the folded balances description. -/
theorem resolveDispute_ok {s s' : State} {caller tid winner pct : Nat}
    (hag : (s.tasks tid).assignedAgent ≠ 0)
    (h : resolveDispute s caller tid winner pct = .ok s') :
    caller = s.owner ∧ (s.tasks tid).status = .Disputed ∧ pct ≤ 100 ∧
    s.deposits tid ≤ s.held ∧
    s'.owner = s.owner ∧ s'.taskCounter = s.taskCounter ∧
    s'.bidCounter = s.bidCounter ∧
    s'.tasks = fupd s.tasks tid ({ s.tasks tid with status := .Finalized }) ∧
    s'.bids = s.bids ∧ s'.taskBids = s.taskBids ∧
    s'.deposits = fupd s.deposits tid 0 ∧
    s'.held = s.held - s.deposits tid ∧
    s'.balances =
      (fun b1 => fupd b1 (s.tasks tid).assignedAgent
        (b1 (s.tasks tid).assignedAgent +
          (s.deposits tid - s.deposits tid * pct / 100)))
      (fupd s.balances (s.tasks tid).creator
        (s.balances (s.tasks tid).creator + s.deposits tid * pct / 100)) := by
  unfold resolveDispute at h
  dsimp only [payOut] at h
  by_cases c1 : caller ≠ s.owner
  · rw [if_pos c1] at h
    exact absurd h (by simp)
  rw [if_neg c1] at h
  by_cases c2 : (s.tasks tid).status ≠ .Disputed
  · rw [if_pos c2] at h
    exact absurd h (by simp)
  rw [if_neg c2] at h
  by_cases c3 : 100 < pct
  · rw [if_pos c3] at h
    exact absurd h (by simp)
  rw [if_neg c3] at h
  push_neg at c1 c2 c3
  have hcA : s.deposits tid * pct / 100 ≤ s.deposits tid := by
    calc s.deposits tid * pct / 100
        ≤ s.deposits tid * 100 / 100 :=
          Nat.div_le_div_right (Nat.mul_le_mul_left _ c3)
      _ = s.deposits tid := Nat.mul_div_cancel _ (by norm_num)
  by_cases c4 : 0 < s.deposits tid * pct / 100
  · rw [if_pos c4] at h
    by_cases c5 : s.held < s.deposits tid * pct / 100
    · rw [if_pos c5] at h
      exact absurd h (by simp)
    rw [if_neg c5] at h
    push_neg at c5
    by_cases c6 : 0 < s.deposits tid - s.deposits tid * pct / 100 ∧
        (s.tasks tid).assignedAgent ≠ 0
    · rw [if_pos c6] at h
      by_cases c7 : s.held - s.deposits tid * pct / 100 <
          s.deposits tid - s.deposits tid * pct / 100
      · rw [if_pos c7] at h
        exact absurd h (by simp)
      rw [if_neg c7] at h
      simp only [Except.ok.injEq] at h
      push_neg at c7
      refine ⟨c1, c2, c3, by omega, ?_, ?_, ?_, ?_, ?_, ?_, ?_, ?_, ?_⟩ <;>
        (rw [← h]; try rfl)
      show s.held - s.deposits tid * pct / 100 -
          (s.deposits tid - s.deposits tid * pct / 100) = s.held - s.deposits tid
      omega
    · rw [if_neg c6] at h
      simp only [Except.ok.injEq] at h
      have haA : s.deposits tid - s.deposits tid * pct / 100 = 0 := by
        rcases not_and_or.mp c6 with hx | hx
        · omega
        · exact absurd hag hx
      refine ⟨c1, c2, c3, by omega, ?_, ?_, ?_, ?_, ?_, ?_, ?_, ?_, ?_⟩ <;>
        (rw [← h]; try rfl)
      · show s.held - s.deposits tid * pct / 100 = s.held - s.deposits tid
        omega
      · show fupd s.balances (s.tasks tid).creator
            (s.balances (s.tasks tid).creator + s.deposits tid * pct / 100) =
          (fun b1 => fupd b1 (s.tasks tid).assignedAgent
            (b1 (s.tasks tid).assignedAgent +
              (s.deposits tid - s.deposits tid * pct / 100)))
          (fupd s.balances (s.tasks tid).creator
            (s.balances (s.tasks tid).creator + s.deposits tid * pct / 100))
        simp only [haA, Nat.add_zero, fupd_self]
  · rw [if_neg c4] at h
    have hcA0 : s.deposits tid * pct / 100 = 0 := by omega
    by_cases c6 : 0 < s.deposits tid - s.deposits tid * pct / 100 ∧
        (s.tasks tid).assignedAgent ≠ 0
    · rw [if_pos c6] at h
      by_cases c7 : s.held < s.deposits tid - s.deposits tid * pct / 100
      · rw [if_pos c7] at h
        exact absurd h (by simp)
      rw [if_neg c7] at h
      simp only [Except.ok.injEq] at h
      push_neg at c7
      refine ⟨c1, c2, c3, by omega, ?_, ?_, ?_, ?_, ?_, ?_, ?_, ?_, ?_⟩ <;>
        (rw [← h]; try rfl)
      · show s.held - (s.deposits tid - s.deposits tid * pct / 100) =
          s.held - s.deposits tid
        omega
      · show fupd s.balances (s.tasks tid).assignedAgent
            (s.balances (s.tasks tid).assignedAgent +
              (s.deposits tid - s.deposits tid * pct / 100)) =
          (fun b1 => fupd b1 (s.tasks tid).assignedAgent
            (b1 (s.tasks tid).assignedAgent +
              (s.deposits tid - s.deposits tid * pct / 100)))
          (fupd s.balances (s.tasks tid).creator
            (s.balances (s.tasks tid).creator + s.deposits tid * pct / 100))
        simp only [hcA0, Nat.add_zero, fupd_self]
    · rw [if_neg c6] at h
      simp only [Except.ok.injEq] at h
      have haA : s.deposits tid - s.deposits tid * pct / 100 = 0 := by
        rcases not_and_or.mp c6 with hx | hx
        · omega
        · exact absurd hag hx
      refine ⟨c1, c2, c3, by omega, ?_, ?_, ?_, ?_, ?_, ?_, ?_, ?_, ?_⟩ <;>
        (rw [← h]; try rfl)
      · show s.held = s.held - s.deposits tid
        omega
      · show s.balances =
          (fun b1 => fupd b1 (s.tasks tid).assignedAgent
            (b1 (s.tasks tid).assignedAgent +
              (s.deposits tid - s.deposits tid * pct / 100)))
          (fupd s.balances (s.tasks tid).creator
            (s.balances (s.tasks tid).creator + s.deposits tid * pct / 100))
        have hd0 : s.deposits tid = 0 := by omega
        simp only [hd0, Nat.zero_mul, Nat.zero_div, Nat.sub_zero, Nat.add_zero,
          fupd_self]


theorem inv_depositEscrow {s s' : State} {caller tid amount : Nat}
    (hInv : Inv s) (h : depositEscrow s caller tid amount = .ok s') : Inv s' := by
  obtain ⟨h1, h2, hOpen, hamt, hcr, hbal, hOw, hTC, hBC, hTasks, hBids, hTB,
    hDep, hHeld, hBal⟩ := depositEscrow_ok h
  refine ⟨?_, ?_, ?_, ?_, ?_, ?_, ?_, ?_, ?_, ?_, ?_, ?_, ?_, ?_, ?_, ?_, ?_, ?_, ?_, ?_⟩
  · intro t htt
    rw [hTC] at htt
    rw [hTasks]
    exact hInv.task_oob t htt
  · intro t htt
    rw [hTC] at htt
    rw [hDep, fupd_other _ _ (by omega)]
    exact hInv.dep_oob t htt
  · intro t htt
    rw [hTC] at htt
    rw [hTB]
    exact hInv.taskBids_oob t htt
  · intro t ha hb
    rw [hTC] at hb
    rw [hTasks]
    exact hInv.task_id t ha hb
  · intro t ha hb
    rw [hTC] at hb
    rw [hTasks]
    exact hInv.creator_nz t ha hb
  · intro t hterm
    rw [hTasks] at hterm
    rw [hDep]
    by_cases hteq : t = tid
    · subst hteq
      rw [hOpen] at hterm
      simp [TaskStatus.isTerminal] at hterm
    · rw [fupd_other _ _ hteq]
      exact hInv.terminal_dep t hterm
  · rw [hHeld, hDep, hTC, sumTo_fupd_add amount h1 h2, ← hInv.held_eq]
  · intro t hass
    rw [hTasks] at hass ⊢
    exact hInv.assigned_nz t hass
  · intro t hst
    rw [hTasks] at hst ⊢
    exact hInv.open_agent t hst
  · intro t hnz
    rw [hTasks] at hnz ⊢
    exact hInv.agent_ne_creator t hnz
  · intro t hst
    rw [hTasks] at hst ⊢
    rw [hDep]
    by_cases hteq : t = tid
    · subst hteq
      rw [hOpen] at hst
      simp at hst
    · rw [fupd_other _ _ hteq]
      exact hInv.inprog_dep t hst
  · intro b hb
    rw [hBC] at hb
    rw [hBids]
    exact hInv.bid_oob b hb
  · intro b ha hb
    rw [hBC] at hb
    rw [hBids]
    exact hInv.bid_id b ha hb
  · intro b ha hb
    rw [hBC] at hb
    rw [hBids]
    exact hInv.bid_agent_nz b ha hb
  · intro b ha hb
    rw [hBC] at hb
    rw [hBids, hTC]
    exact hInv.bid_tid_range b ha hb
  · intro b ha hb
    rw [hBC] at hb
    rw [hBids, hTasks]
    exact hInv.bid_agent_ne_creator b ha hb
  · intro b ha hb
    rw [hBC] at hb
    rw [hBids, hTB]
    exact hInv.bid_mem b ha hb
  · intro t b hmem
    rw [hTB] at hmem
    rw [hBC, hBids]
    exact hInv.taskBids_mem t b hmem
  · intro t b hst hmem
    rw [hTasks] at hst
    rw [hTB] at hmem
    rw [hBids]
    exact hInv.open_no_accepted t b hst hmem
  · intro t b1 b2 hm1 hm2 ha1 ha2
    rw [hTB] at hm1 hm2
    rw [hBids] at ha1 ha2
    exact hInv.accepted_unique t b1 b2 hm1 hm2 ha1 ha2

/-- Shared preservation argument for task-status-only updates: the task at
`tid` changes status (and possibly `completedAt`) to a non-`Open`,
non-terminal, agent-requiring status while everything else stays; used for
`completeTask` and `raiseDispute`. -/
theorem inv_task_status_only {s s' : State} {tid : Nat} (st : TaskStatus) {ca : Nat}
    (hInv : Inv s)
    (hold : (s.tasks tid).status = .InProgress ∨ (s.tasks tid).status = .Completed)
    (hst_terminal : st.isTerminal = false) (hst_assigned : st.isAssigned = true)
    (hst_open : st ≠ .Open)
    (hst_dep : st = .InProgress ∨ st = .Completed ∨ st = .Disputed)
    (hOw : s'.owner = s.owner) (hTC : s'.taskCounter = s.taskCounter)
    (hBC : s'.bidCounter = s.bidCounter)
    (hTasks : s'.tasks = fupd s.tasks tid
      ({ s.tasks tid with status := st, completedAt := ca }))
    (hBids : s'.bids = s.bids) (hTB : s'.taskBids = s.taskBids)
    (hDep : s'.deposits = s.deposits) (hHeld : s'.held = s.held)
    (hBal : s'.balances = s.balances) : Inv s' := by
  have hrange : 1 ≤ tid ∧ tid ≤ s.taskCounter := by
    by_contra hx
    have hoob : tid = 0 ∨ s.taskCounter < tid := by omega
    have := hInv.task_oob tid hoob
    rw [this] at hold
    simp [dTask] at hold
  refine ⟨?_, ?_, ?_, ?_, ?_, ?_, ?_, ?_, ?_, ?_, ?_, ?_, ?_, ?_, ?_, ?_, ?_, ?_, ?_, ?_⟩
  · intro t htt
    rw [hTC] at htt
    rw [hTasks, fupd_other _ _ (by omega)]
    exact hInv.task_oob t htt
  · intro t htt
    rw [hTC] at htt
    rw [hDep]
    exact hInv.dep_oob t htt
  · intro t htt
    rw [hTC] at htt
    rw [hTB]
    exact hInv.taskBids_oob t htt
  · intro t ha hb
    rw [hTC] at hb
    rw [hTasks]
    by_cases hteq : t = tid
    · subst hteq
      rw [fupd_same]
      exact hInv.task_id t ha hb
    · rw [fupd_other _ _ hteq]
      exact hInv.task_id t ha hb
  · intro t ha hb
    rw [hTC] at hb
    rw [hTasks]
    by_cases hteq : t = tid
    · subst hteq
      rw [fupd_same]
      exact hInv.creator_nz t ha hb
    · rw [fupd_other _ _ hteq]
      exact hInv.creator_nz t ha hb
  · intro t hterm
    rw [hTasks] at hterm
    rw [hDep]
    by_cases hteq : t = tid
    · subst hteq
      rw [fupd_same] at hterm
      simp only at hterm
      rw [hst_terminal] at hterm
      exact absurd hterm (by simp)
    · rw [fupd_other _ _ hteq] at hterm
      exact hInv.terminal_dep t hterm
  · rw [hHeld, hDep, hTC]
    exact hInv.held_eq
  · intro t hass
    rw [hTasks] at hass ⊢
    by_cases hteq : t = tid
    · subst hteq
      rw [fupd_same]
      have : (s.tasks t).status.isAssigned = true := by
        rcases hold with h | h <;> rw [h] <;> rfl
      exact hInv.assigned_nz t this
    · rw [fupd_other _ _ hteq] at hass ⊢
      exact hInv.assigned_nz t hass
  · intro t hst
    rw [hTasks] at hst ⊢
    by_cases hteq : t = tid
    · subst hteq
      rw [fupd_same] at hst
      simp only at hst
      exact absurd hst hst_open
    · rw [fupd_other _ _ hteq] at hst ⊢
      exact hInv.open_agent t hst
  · intro t hnz
    rw [hTasks] at hnz ⊢
    by_cases hteq : t = tid
    · subst hteq
      rw [fupd_same] at hnz ⊢
      exact hInv.agent_ne_creator t hnz
    · rw [fupd_other _ _ hteq] at hnz ⊢
      exact hInv.agent_ne_creator t hnz
  · intro t hstx
    rw [hTasks] at hstx ⊢
    rw [hDep]
    by_cases hteq : t = tid
    · subst hteq
      rw [fupd_same]
      have : (s.tasks t).reward ≤ s.deposits t := by
        apply hInv.inprog_dep
        tauto
      exact this
    · rw [fupd_other _ _ hteq] at hstx ⊢
      exact hInv.inprog_dep t hstx
  · intro b hb
    rw [hBC] at hb
    rw [hBids]
    exact hInv.bid_oob b hb
  · intro b ha hb
    rw [hBC] at hb
    rw [hBids]
    exact hInv.bid_id b ha hb
  · intro b ha hb
    rw [hBC] at hb
    rw [hBids]
    exact hInv.bid_agent_nz b ha hb
  · intro b ha hb
    rw [hBC] at hb
    rw [hBids, hTC]
    exact hInv.bid_tid_range b ha hb
  · intro b ha hb
    rw [hBC] at hb
    rw [hBids, hTasks]
    by_cases hteq : (s.bids b).taskId = tid
    · rw [hteq, fupd_same]
      have := hInv.bid_agent_ne_creator b ha hb
      rw [hteq] at this
      exact this
    · rw [fupd_other _ _ hteq]
      exact hInv.bid_agent_ne_creator b ha hb
  · intro b ha hb
    rw [hBC] at hb
    rw [hBids, hTB]
    exact hInv.bid_mem b ha hb
  · intro t b hmem
    rw [hTB] at hmem
    rw [hBC, hBids]
    exact hInv.taskBids_mem t b hmem
  · intro t b hstx hmem
    rw [hTasks] at hstx
    rw [hTB] at hmem
    rw [hBids]
    by_cases hteq : t = tid
    · subst hteq
      rw [fupd_same] at hstx
      simp only at hstx
      exact absurd hstx hst_open
    · rw [fupd_other _ _ hteq] at hstx
      exact hInv.open_no_accepted t b hstx hmem
  · intro t b1 b2 hm1 hm2 ha1 ha2
    rw [hTB] at hm1 hm2
    rw [hBids] at ha1 ha2
    exact hInv.accepted_unique t b1 b2 hm1 hm2 ha1 ha2

theorem inv_completeTask {s s' : State} {caller now tid : Nat} {resultHash : String}
    (hInv : Inv s) (h : completeTask s caller now tid resultHash = .ok s') : Inv s' := by
  obtain ⟨hag, hst, hOw, hTC, hBC, hTasks, hBids, hTB, hDep, hHeld, hBal⟩ :=
    completeTask_ok h
  exact inv_task_status_only .Completed hInv (Or.inl hst) rfl rfl (by simp) (by simp)
    hOw hTC hBC hTasks hBids hTB hDep hHeld hBal

theorem inv_raiseDispute {s s' : State} {caller tid : Nat}
    (hInv : Inv s) (h : raiseDispute s caller tid = .ok s') : Inv s' := by
  obtain ⟨h1, h2, hwho, hst, hOw, hTC, hBC, hTasks, hBids, hTB, hDep, hHeld, hBal⟩ :=
    raiseDispute_ok h
  have hTasks' : s'.tasks = fupd s.tasks tid ({ s.tasks tid with status := TaskStatus.Disputed, completedAt := (s.tasks tid).completedAt }) := hTasks
  exact inv_task_status_only .Disputed hInv hst rfl rfl (by simp) (by simp)
    hOw hTC hBC hTasks' hBids hTB hDep hHeld hBal

/-- Shared preservation argument for bid-status-only updates to a
non-`Accepted` status (`rejectBid`, `withdrawBid`). -/
theorem inv_bid_status_only {s s' : State} {bidId : Nat} {st : BidStatus}
    (hInv : Inv s) (hrange : 1 ≤ bidId ∧ bidId ≤ s.bidCounter)
    (hst : st ≠ .Accepted)
    (hOw : s'.owner = s.owner) (hTC : s'.taskCounter = s.taskCounter)
    (hBC : s'.bidCounter = s.bidCounter) (hTasks : s'.tasks = s.tasks)
    (hBids : s'.bids = fupd s.bids bidId ({ s.bids bidId with status := st }))
    (hTB : s'.taskBids = s.taskBids) (hDep : s'.deposits = s.deposits)
    (hHeld : s'.held = s.held) (hBal : s'.balances = s.balances) : Inv s' := by
  have hfields : ∀ b, (s'.bids b).id = (s.bids b).id ∧
      (s'.bids b).agent = (s.bids b).agent ∧
      (s'.bids b).taskId = (s.bids b).taskId ∧
      (s'.bids b).amount = (s.bids b).amount := by
    intro b
    rw [hBids]
    by_cases hbeq : b = bidId
    · subst hbeq
      rw [fupd_same]
      exact ⟨rfl, rfl, rfl, rfl⟩
    · rw [fupd_other _ _ hbeq]
      exact ⟨rfl, rfl, rfl, rfl⟩
  have hstatus : ∀ b, b ≠ bidId → (s'.bids b).status = (s.bids b).status := by
    intro b hbeq
    rw [hBids, fupd_other _ _ hbeq]
  have hstat_bid : (s'.bids bidId).status = st := by
    rw [hBids, fupd_same]
  refine ⟨?_, ?_, ?_, ?_, ?_, ?_, ?_, ?_, ?_, ?_, ?_, ?_, ?_, ?_, ?_, ?_, ?_, ?_, ?_, ?_⟩
  · intro t htt
    rw [hTC] at htt
    rw [hTasks]
    exact hInv.task_oob t htt
  · intro t htt
    rw [hTC] at htt
    rw [hDep]
    exact hInv.dep_oob t htt
  · intro t htt
    rw [hTC] at htt
    rw [hTB]
    exact hInv.taskBids_oob t htt
  · intro t ha hb
    rw [hTC] at hb
    rw [hTasks]
    exact hInv.task_id t ha hb
  · intro t ha hb
    rw [hTC] at hb
    rw [hTasks]
    exact hInv.creator_nz t ha hb
  · intro t hterm
    rw [hTasks] at hterm
    rw [hDep]
    exact hInv.terminal_dep t hterm
  · rw [hHeld, hDep, hTC]
    exact hInv.held_eq
  · intro t hass
    rw [hTasks] at hass ⊢
    exact hInv.assigned_nz t hass
  · intro t hstx
    rw [hTasks] at hstx ⊢
    exact hInv.open_agent t hstx
  · intro t hnz
    rw [hTasks] at hnz ⊢
    exact hInv.agent_ne_creator t hnz
  · intro t hstx
    rw [hTasks] at hstx ⊢
    rw [hDep]
    exact hInv.inprog_dep t hstx
  · intro b hb
    rw [hBC] at hb
    rw [hBids, fupd_other _ _ (by omega)]
    exact hInv.bid_oob b hb
  · intro b ha hb
    rw [hBC] at hb
    rw [(hfields b).1]
    exact hInv.bid_id b ha hb
  · intro b ha hb
    rw [hBC] at hb
    rw [(hfields b).2.1]
    exact hInv.bid_agent_nz b ha hb
  · intro b ha hb
    rw [hBC] at hb
    rw [(hfields b).2.2.1, hTC]
    exact hInv.bid_tid_range b ha hb
  · intro b ha hb
    rw [hBC] at hb
    rw [(hfields b).2.1, (hfields b).2.2.1, hTasks]
    exact hInv.bid_agent_ne_creator b ha hb
  · intro b ha hb
    rw [hBC] at hb
    rw [(hfields b).2.2.1, hTB]
    exact hInv.bid_mem b ha hb
  · intro t b hmem
    rw [hTB] at hmem
    rw [hBC, (hfields b).2.2.1]
    exact hInv.taskBids_mem t b hmem
  · intro t b hstx hmem
    rw [hTasks] at hstx
    rw [hTB] at hmem
    by_cases hbeq : b = bidId
    · subst hbeq
      rw [hstat_bid]
      exact hst
    · rw [hstatus b hbeq]
      exact hInv.open_no_accepted t b hstx hmem
  · intro t b1 b2 hm1 hm2 ha1 ha2
    rw [hTB] at hm1 hm2
    by_cases hb1 : b1 = bidId
    · subst hb1
      rw [hstat_bid] at ha1
      exact absurd ha1 hst
    by_cases hb2 : b2 = bidId
    · subst hb2
      rw [hstat_bid] at ha2
      exact absurd ha2 hst
    rw [hstatus b1 hb1] at ha1
    rw [hstatus b2 hb2] at ha2
    exact hInv.accepted_unique t b1 b2 hm1 hm2 ha1 ha2

theorem inv_rejectBid {s s' : State} {caller bidId : Nat}
    (hInv : Inv s) (hc : caller ≠ 0) (h : rejectBid s caller bidId = .ok s') :
    Inv s' := by
  obtain ⟨hid, hpend, hcr, hOw, hTC, hBC, hTasks, hBids, hTB, hDep, hHeld, hBal⟩ :=
    rejectBid_ok h
  have hrange : 1 ≤ bidId ∧ bidId ≤ s.bidCounter := by
    by_contra hx
    have hoob : bidId = 0 ∨ s.bidCounter < bidId := by omega
    have hd := hInv.bid_oob bidId hoob
    rcases hoob with h0 | hgt
    · subst h0
      rw [hd] at hcr
      have : (s.tasks (0 : Nat)).creator = 0 := by
        rw [hInv.task_oob 0 (Or.inl rfl)]
        rfl
      rw [show (dBid.taskId : Nat) = 0 from rfl] at hcr
      rw [this] at hcr
      exact hc hcr.symm
    · rw [hd] at hid
      have : (dBid.id : Nat) = 0 := rfl
      omega
  exact inv_bid_status_only hInv hrange (by simp)
    hOw hTC hBC hTasks hBids hTB hDep hHeld hBal

theorem inv_withdrawBid {s s' : State} {caller bidId : Nat}
    (hInv : Inv s) (hc : caller ≠ 0) (h : withdrawBid s caller bidId = .ok s') :
    Inv s' := by
  obtain ⟨hid, hpend, hagent, hOw, hTC, hBC, hTasks, hBids, hTB, hDep, hHeld, hBal⟩ :=
    withdrawBid_ok h
  have hrange : 1 ≤ bidId ∧ bidId ≤ s.bidCounter := by
    by_contra hx
    have hoob : bidId = 0 ∨ s.bidCounter < bidId := by omega
    have hd := hInv.bid_oob bidId hoob
    rcases hoob with h0 | hgt
    · subst h0
      rw [hd] at hagent
      have : (dBid.agent : Nat) = 0 := rfl
      rw [this] at hagent
      exact hc hagent.symm
    · rw [hd] at hid
      have : (dBid.id : Nat) = 0 := rfl
      omega
  exact inv_bid_status_only hInv hrange (by simp)
    hOw hTC hBC hTasks hBids hTB hDep hHeld hBal


/-- A task whose stored creator is a nonzero caller is a real task id. -/
theorem task_range_of_creator {s : State} {tid caller : Nat} (hInv : Inv s)
    (hc : caller ≠ 0) (hcr : (s.tasks tid).creator = caller) :
    1 ≤ tid ∧ tid ≤ s.taskCounter := by
  by_contra hx
  have hoob : tid = 0 ∨ s.taskCounter < tid := by omega
  rw [hInv.task_oob tid hoob] at hcr
  exact hc ((show (dTask.creator : Nat) = 0 from rfl) ▸ hcr).symm

/-- A task whose status is not `Open` is a real task id. -/
theorem task_range_of_status {s : State} {tid : Nat} (hInv : Inv s)
    (hst : (s.tasks tid).status ≠ .Open) :
    1 ≤ tid ∧ tid ≤ s.taskCounter := by
  by_contra hx
  have hoob : tid = 0 ∨ s.taskCounter < tid := by omega
  rw [hInv.task_oob tid hoob] at hst
  exact hst rfl

/-- Shared preservation argument for the three settling operations
(`approveAndRelease`, `cancelTask`, `resolveDispute`): the task at `tid` moves
to a terminal status, its escrow entry is zeroed, the held balance drops by
exactly that entry, and the bid side is untouched. -/
theorem inv_settle {s s' : State} {tid : Nat} (st : TaskStatus)
    (hInv : Inv s) (hrange : 1 ≤ tid ∧ tid ≤ s.taskCounter)
    (hterm : st.isTerminal = true) (hopen : st ≠ .Open)
    (hnotip : ¬(st = .InProgress ∨ st = .Completed ∨ st = .Disputed))
    (hagent : st.isAssigned = true → (s.tasks tid).assignedAgent ≠ 0)
    (hTC : s'.taskCounter = s.taskCounter) (hBC : s'.bidCounter = s.bidCounter)
    (hTasks : s'.tasks = fupd s.tasks tid ({ s.tasks tid with status := st }))
    (hBids : s'.bids = s.bids) (hTB : s'.taskBids = s.taskBids)
    (hDep : s'.deposits = fupd s.deposits tid 0)
    (hHeld : s'.held = s.held - s.deposits tid) : Inv s' := by
  refine ⟨?_, ?_, ?_, ?_, ?_, ?_, ?_, ?_, ?_, ?_, ?_, ?_, ?_, ?_, ?_, ?_, ?_, ?_, ?_, ?_⟩
  · intro t htt
    rw [hTC] at htt
    rw [hTasks, fupd_other _ _ (by omega)]
    exact hInv.task_oob t htt
  · intro t htt
    rw [hTC] at htt
    rw [hDep, fupd_other _ _ (by omega)]
    exact hInv.dep_oob t htt
  · intro t htt
    rw [hTC] at htt
    rw [hTB]
    exact hInv.taskBids_oob t htt
  · intro t ha hb
    rw [hTC] at hb
    rw [hTasks]
    by_cases hteq : t = tid
    · subst hteq
      rw [fupd_same]
      exact hInv.task_id t ha hb
    · rw [fupd_other _ _ hteq]
      exact hInv.task_id t ha hb
  · intro t ha hb
    rw [hTC] at hb
    rw [hTasks]
    by_cases hteq : t = tid
    · subst hteq
      rw [fupd_same]
      exact hInv.creator_nz t ha hb
    · rw [fupd_other _ _ hteq]
      exact hInv.creator_nz t ha hb
  · intro t hterm'
    rw [hTasks] at hterm'
    rw [hDep]
    by_cases hteq : t = tid
    · subst hteq
      rw [fupd_same]
    · rw [fupd_other _ _ hteq] at hterm'
      rw [fupd_other _ _ hteq]
      exact hInv.terminal_dep t hterm'
  · rw [hHeld, hDep, hTC]
    have hz := sumTo_fupd_zero hrange.1 hrange.2 (d := s.deposits)
    have hle := le_sumTo hrange.1 hrange.2 (d := s.deposits)
    rw [hInv.held_eq]
    omega
  · intro t hass
    rw [hTasks] at hass ⊢
    by_cases hteq : t = tid
    · subst hteq
      rw [fupd_same] at hass ⊢
      exact hagent hass
    · rw [fupd_other _ _ hteq] at hass ⊢
      exact hInv.assigned_nz t hass
  · intro t hstx
    rw [hTasks] at hstx ⊢
    by_cases hteq : t = tid
    · subst hteq
      rw [fupd_same] at hstx
      exact absurd hstx hopen
    · rw [fupd_other _ _ hteq] at hstx ⊢
      exact hInv.open_agent t hstx
  · intro t hnz
    rw [hTasks] at hnz ⊢
    by_cases hteq : t = tid
    · subst hteq
      rw [fupd_same] at hnz ⊢
      exact hInv.agent_ne_creator t hnz
    · rw [fupd_other _ _ hteq] at hnz ⊢
      exact hInv.agent_ne_creator t hnz
  · intro t hstx
    rw [hTasks] at hstx ⊢
    rw [hDep]
    by_cases hteq : t = tid
    · subst hteq
      rw [fupd_same] at hstx
      exact absurd hstx hnotip
    · rw [fupd_other _ _ hteq] at hstx
      rw [fupd_other _ _ hteq, fupd_other _ _ hteq]
      exact hInv.inprog_dep t hstx
  · intro b hb
    rw [hBC] at hb
    rw [hBids]
    exact hInv.bid_oob b hb
  · intro b ha hb
    rw [hBC] at hb
    rw [hBids]
    exact hInv.bid_id b ha hb
  · intro b ha hb
    rw [hBC] at hb
    rw [hBids]
    exact hInv.bid_agent_nz b ha hb
  · intro b ha hb
    rw [hBC] at hb
    rw [hBids, hTC]
    exact hInv.bid_tid_range b ha hb
  · intro b ha hb
    rw [hBC] at hb
    rw [hBids, hTasks]
    by_cases hteq : (s.bids b).taskId = tid
    · rw [hteq, fupd_same]
      have := hInv.bid_agent_ne_creator b ha hb
      rw [hteq] at this
      exact this
    · rw [fupd_other _ _ hteq]
      exact hInv.bid_agent_ne_creator b ha hb
  · intro b ha hb
    rw [hBC] at hb
    rw [hBids, hTB]
    exact hInv.bid_mem b ha hb
  · intro t b hmem
    rw [hTB] at hmem
    rw [hBC, hBids]
    exact hInv.taskBids_mem t b hmem
  · intro t b hstx hmem
    rw [hTasks] at hstx
    rw [hTB] at hmem
    rw [hBids]
    by_cases hteq : t = tid
    · subst hteq
      rw [fupd_same] at hstx
      exact absurd hstx hopen
    · rw [fupd_other _ _ hteq] at hstx
      exact hInv.open_no_accepted t b hstx hmem
  · intro t b1 b2 hm1 hm2 ha1 ha2
    rw [hTB] at hm1 hm2
    rw [hBids] at ha1 ha2
    exact hInv.accepted_unique t b1 b2 hm1 hm2 ha1 ha2

theorem inv_approveAndRelease {s s' : State} {caller tid : Nat}
    (hInv : Inv s) (h : approveAndRelease s caller tid = .ok s') : Inv s' := by
  obtain ⟨hcr, hst, hrw, hag, hdh, hOw, hTC, hBC, hTasks, hBids, hTB, hDep,
    hHeld, hBal⟩ := approveAndRelease_ok h
  have hrange : 1 ≤ tid ∧ tid ≤ s.taskCounter :=
    task_range_of_status hInv (by rw [hst]; simp)
  exact inv_settle .Finalized hInv hrange rfl (by simp) (by simp)
    (fun _ => hag) hTC hBC hTasks hBids hTB hDep hHeld

theorem inv_cancelTask {s s' : State} {caller tid : Nat}
    (hInv : Inv s) (hc : caller ≠ 0) (h : cancelTask s caller tid = .ok s') :
    Inv s' := by
  obtain ⟨hcr, hst, hdh, hOw, hTC, hBC, hTasks, hBids, hTB, hDep, hHeld, hBal⟩ :=
    cancelTask_ok h
  have hrange : 1 ≤ tid ∧ tid ≤ s.taskCounter :=
    task_range_of_creator hInv hc hcr
  exact inv_settle .Cancelled hInv hrange rfl (by simp) (by simp)
    (fun hx => by simp [TaskStatus.isAssigned] at hx) hTC hBC hTasks hBids hTB
    hDep hHeld

/-- The status guard of `resolveDispute`, extracted on its own so the agent
hypothesis of `resolveDispute_ok` can be discharged first. -/
theorem resolveDispute_ok_status {s s' : State} {caller tid winner pct : Nat}
    (h : resolveDispute s caller tid winner pct = .ok s') :
    (s.tasks tid).status = .Disputed := by
  unfold resolveDispute at h
  by_cases c1 : caller ≠ s.owner
  · rw [if_pos c1] at h
    exact absurd h (by simp)
  rw [if_neg c1] at h
  by_cases c2 : (s.tasks tid).status ≠ .Disputed
  · rw [if_pos c2] at h
    exact absurd h (by simp)
  push_neg at c2
  exact c2

theorem inv_resolveDispute {s s' : State} {caller tid winner pct : Nat}
    (hInv : Inv s) (h : resolveDispute s caller tid winner pct = .ok s') :
    Inv s' := by
  have hdisp := resolveDispute_ok_status h
  have hag : (s.tasks tid).assignedAgent ≠ 0 :=
    hInv.assigned_nz tid (by rw [hdisp]; rfl)
  obtain ⟨hown, hst, hpct, hdh, hOw, hTC, hBC, hTasks, hBids, hTB, hDep,
    hHeld, hBal⟩ := resolveDispute_ok hag h
  have hrange : 1 ≤ tid ∧ tid ≤ s.taskCounter :=
    task_range_of_status hInv (by rw [hst]; simp)
  exact inv_settle .Finalized hInv hrange rfl (by simp) (by simp)
    (fun _ => hag) hTC hBC hTasks hBids hTB hDep hHeld


theorem inv_submitBid {s s' : State} {caller now tid amount bidId : Nat}
    {message : String} (hInv : Inv s) (hc : caller ≠ 0)
    (h : submitBid s caller now tid amount message = .ok (s', bidId)) : Inv s' := by
  obtain ⟨h1, h2, hOpen, hamt, hncr, hbid, hOw, hTC, hBC, hTasks, hBids, hTB,
    hDep, hHeld, hBal⟩ := submitBid_ok h
  refine ⟨?_, ?_, ?_, ?_, ?_, ?_, ?_, ?_, ?_, ?_, ?_, ?_, ?_, ?_, ?_, ?_, ?_, ?_, ?_, ?_⟩
  · intro t htt
    rw [hTC] at htt
    rw [hTasks]
    exact hInv.task_oob t htt
  · intro t htt
    rw [hTC] at htt
    rw [hDep]
    exact hInv.dep_oob t htt
  · intro t htt
    rw [hTC] at htt
    rw [hTB, fupd_other _ _ (by omega)]
    exact hInv.taskBids_oob t htt
  · intro t ha hb
    rw [hTC] at hb
    rw [hTasks]
    exact hInv.task_id t ha hb
  · intro t ha hb
    rw [hTC] at hb
    rw [hTasks]
    exact hInv.creator_nz t ha hb
  · intro t hterm
    rw [hTasks] at hterm
    rw [hDep]
    exact hInv.terminal_dep t hterm
  · rw [hHeld, hDep, hTC]
    exact hInv.held_eq
  · intro t hass
    rw [hTasks] at hass ⊢
    exact hInv.assigned_nz t hass
  · intro t hst
    rw [hTasks] at hst ⊢
    exact hInv.open_agent t hst
  · intro t hnz
    rw [hTasks] at hnz ⊢
    exact hInv.agent_ne_creator t hnz
  · intro t hst
    rw [hTasks] at hst ⊢
    rw [hDep]
    exact hInv.inprog_dep t hst
  · intro b hb
    rw [hBC] at hb
    rw [hBids, fupd_other _ _ (by omega)]
    exact hInv.bid_oob b (by omega)
  · intro b ha hb
    rw [hBC] at hb
    rw [hBids]
    by_cases hbeq : b = s.bidCounter + 1
    · subst hbeq
      rw [fupd_same]
      rfl
    · rw [fupd_other _ _ hbeq]
      exact hInv.bid_id b ha (by omega)
  · intro b ha hb
    rw [hBC] at hb
    rw [hBids]
    by_cases hbeq : b = s.bidCounter + 1
    · subst hbeq
      rw [fupd_same]
      exact hc
    · rw [fupd_other _ _ hbeq]
      exact hInv.bid_agent_nz b ha (by omega)
  · intro b ha hb
    rw [hBC] at hb
    rw [hBids, hTC]
    by_cases hbeq : b = s.bidCounter + 1
    · subst hbeq
      rw [fupd_same]
      exact ⟨h1, h2⟩
    · rw [fupd_other _ _ hbeq]
      exact hInv.bid_tid_range b ha (by omega)
  · intro b ha hb
    rw [hBC] at hb
    rw [hBids, hTasks]
    by_cases hbeq : b = s.bidCounter + 1
    · subst hbeq
      rw [fupd_same]
      show caller ≠ (s.tasks tid).creator
      exact fun hx => hncr hx.symm
    · rw [fupd_other _ _ hbeq]
      exact hInv.bid_agent_ne_creator b ha (by omega)
  · intro b ha hb
    rw [hBC] at hb
    rw [hBids, hTB]
    by_cases hbeq : b = s.bidCounter + 1
    · subst hbeq
      rw [fupd_same]
      rw [show (newBidRec s caller now tid amount message).taskId = tid from rfl,
        fupd_same]
      simp
    · rw [fupd_other _ _ hbeq]
      have hmem := hInv.bid_mem b ha (by omega)
      by_cases hteq : (s.bids b).taskId = tid
      · rw [hteq, fupd_same]
        rw [hteq] at hmem
        exact List.mem_append_left _ hmem
      · rw [fupd_other _ _ hteq]
        exact hmem
  · intro t b hmem
    rw [hTB] at hmem
    rw [hBC, hBids]
    by_cases hteq : t = tid
    · subst hteq
      rw [fupd_same] at hmem
      rcases List.mem_append.mp hmem with hmo | hmn
      · have := hInv.taskBids_mem t b hmo
        rw [fupd_other _ _ (by omega)]
        exact ⟨this.1, by omega, this.2.2⟩
      · simp at hmn
        subst hmn
        rw [fupd_same]
        exact ⟨by omega, by omega, rfl⟩
    · rw [fupd_other _ _ hteq] at hmem
      have := hInv.taskBids_mem t b hmem
      rw [fupd_other _ _ (by omega)]
      exact ⟨this.1, by omega, this.2.2⟩
  · intro t b hst hmem
    rw [hTasks] at hst
    rw [hTB] at hmem
    rw [hBids]
    by_cases hteq : t = tid
    · subst hteq
      rw [fupd_same] at hmem
      rcases List.mem_append.mp hmem with hmo | hmn
      · have := hInv.taskBids_mem t b hmo
        rw [fupd_other _ _ (by omega)]
        exact hInv.open_no_accepted t b hst hmo
      · simp at hmn
        subst hmn
        rw [fupd_same]
        simp [newBidRec]
    · rw [fupd_other _ _ hteq] at hmem
      have := hInv.taskBids_mem t b hmem
      rw [fupd_other _ _ (by omega)]
      exact hInv.open_no_accepted t b hst hmem
  · intro t b1 b2 hm1 hm2 ha1 ha2
    rw [hTB] at hm1 hm2
    rw [hBids] at ha1 ha2
    have hstep : ∀ b, b ∈ s'.taskBids t →
        (fupd s.bids (s.bidCounter + 1)
          (newBidRec s caller now tid amount message) b).status = .Accepted →
        b ∈ s.taskBids t ∧ (s.bids b).status = .Accepted := by
      intro b hm ha
      rw [hTB] at hm
      by_cases hbeq : b = s.bidCounter + 1
      · subst hbeq
        rw [fupd_same] at ha
        exact absurd ha (by simp [newBidRec])
      · rw [fupd_other _ _ hbeq] at ha
        by_cases hteq : t = tid
        · subst hteq
          rw [fupd_same] at hm
          rcases List.mem_append.mp hm with hmo | hmn
          · exact ⟨hmo, ha⟩
          · simp at hmn
            exact absurd hmn hbeq
        · rw [fupd_other _ _ hteq] at hm
          exact ⟨hm, ha⟩
    have r1 := hstep b1 (by rw [hTB]; exact hm1) ha1
    have r2 := hstep b2 (by rw [hTB]; exact hm2) ha2
    exact hInv.accepted_unique t b1 b2 r1.1 r2.1 r1.2 r2.2


/-- Pointwise description of the bids map after a successful `acceptBid`,
assuming the accepted bid is listed under its task (true in every reachable
state): the accepted bid becomes `Accepted`, every other still-`Pending` bid
of the task becomes `Rejected`, everything else is untouched. -/
theorem acceptBid_bids_eq {s s' : State} {caller bidId : Nat}
    (hmem : bidId ∈ s.taskBids ((s.bids bidId).taskId))
    (h : acceptBid s caller bidId = .ok s') :
    ∀ b, s'.bids b =
      if b = bidId then { s.bids bidId with status := .Accepted }
      else if b ∈ s.taskBids ((s.bids bidId).taskId) ∧ (s.bids b).status = .Pending
      then { s.bids b with status := .Rejected }
      else s.bids b := by
  obtain ⟨hid, hpend, hcr, hopen, hamtle, hOw, hTC, hBC, hTasks, hBids, hTB,
    hDep, hHeld, hBal⟩ := acceptBid_ok h
  intro b
  rw [hBids]
  by_cases hlen : 1 < (s.taskBids ((s.bids bidId).taskId)).length
  · rw [if_pos hlen, rejectOtherBids_eq]
    by_cases hbeq : b = bidId
    · subst hbeq
      rw [if_neg (by simp), if_pos rfl, fupd_same]
    · rw [fupd_other _ _ hbeq, if_neg hbeq]
      by_cases hcnd : b ∈ s.taskBids ((s.bids bidId).taskId) ∧
          (s.bids b).status = .Pending
      · rw [if_pos (by tauto), if_pos hcnd]
      · rw [if_neg (by tauto), if_neg hcnd]
  · rw [if_neg hlen]
    have hids : s.taskBids ((s.bids bidId).taskId) = [bidId] := by
      push_neg at hlen
      rcases hl : s.taskBids ((s.bids bidId).taskId) with _ | ⟨x, xs⟩
      · rw [hl] at hmem
        simp at hmem
      · rw [hl] at hmem hlen
        cases xs with
        | nil =>
          simp at hmem
          rw [hmem]
        | cons y ys =>
          simp [List.length_cons] at hlen
    by_cases hbeq : b = bidId
    · subst hbeq
      rw [if_pos rfl, fupd_same]
    · rw [fupd_other _ _ hbeq, if_neg hbeq, hids,
        if_neg (by simp [hbeq])]

theorem inv_acceptBid {s s' : State} {caller bidId : Nat}
    (hInv : Inv s) (hc : caller ≠ 0) (h : acceptBid s caller bidId = .ok s') :
    Inv s' := by
  obtain ⟨hid, hpend, hcr, hopen, hamtle, hOw, hTC, hBC, hTasks, hBids, hTB,
    hDep, hHeld, hBal⟩ := acceptBid_ok h
  have hrangeb : 1 ≤ bidId ∧ bidId ≤ s.bidCounter := by
    by_contra hx
    have hoob : bidId = 0 ∨ s.bidCounter < bidId := by omega
    have hd := hInv.bid_oob bidId hoob
    rcases hoob with h0 | hgt
    · subst h0
      rw [hd] at hcr
      have ht0 : (s.tasks (dBid.taskId)).creator = 0 := by
        rw [show (dBid.taskId : Nat) = 0 from rfl, hInv.task_oob 0 (Or.inl rfl)]
        rfl
      exact hc ((hcr.symm.trans ht0))
    · rw [hd] at hid
      have hz : (dBid.id : Nat) = 0 := rfl
      omega
  have hranget := hInv.bid_tid_range bidId hrangeb.1 hrangeb.2
  have hmem := hInv.bid_mem bidId hrangeb.1 hrangeb.2
  have hbidsP := acceptBid_bids_eq hmem h
  have hfieldsB : ∀ b, (s'.bids b).id = (s.bids b).id ∧
      (s'.bids b).agent = (s.bids b).agent ∧
      (s'.bids b).taskId = (s.bids b).taskId ∧
      (s'.bids b).amount = (s.bids b).amount := by
    intro b
    rw [hbidsP b]
    by_cases h1 : b = bidId
    · rw [if_pos h1]
      subst h1
      exact ⟨rfl, rfl, rfl, rfl⟩
    · rw [if_neg h1]
      by_cases h2 : b ∈ s.taskBids ((s.bids bidId).taskId) ∧
          (s.bids b).status = .Pending
      · rw [if_pos h2]
        exact ⟨rfl, rfl, rfl, rfl⟩
      · rw [if_neg h2]
        exact ⟨rfl, rfl, rfl, rfl⟩
  have hAccOnly : ∀ b, b ≠ bidId → (s'.bids b).status = .Accepted →
      (s.bids b).status = .Accepted := by
    intro b hbeq hacc
    rw [hbidsP b, if_neg hbeq] at hacc
    by_cases h2 : b ∈ s.taskBids ((s.bids bidId).taskId) ∧
        (s.bids b).status = .Pending
    · rw [if_pos h2] at hacc
      exact absurd hacc (by simp)
    · rw [if_neg h2] at hacc
      exact hacc
  refine ⟨?_, ?_, ?_, ?_, ?_, ?_, ?_, ?_, ?_, ?_, ?_, ?_, ?_, ?_, ?_, ?_, ?_, ?_, ?_, ?_⟩
  · intro t htt
    rw [hTC] at htt
    rw [hTasks, fupd_other _ _ (by omega)]
    exact hInv.task_oob t htt
  · intro t htt
    rw [hTC] at htt
    rw [hDep]
    exact hInv.dep_oob t htt
  · intro t htt
    rw [hTC] at htt
    rw [hTB]
    exact hInv.taskBids_oob t htt
  · intro t ha hb
    rw [hTC] at hb
    rw [hTasks]
    by_cases hteq : t = (s.bids bidId).taskId
    · subst hteq
      rw [fupd_same]
      exact hInv.task_id _ ha hb
    · rw [fupd_other _ _ hteq]
      exact hInv.task_id t ha hb
  · intro t ha hb
    rw [hTC] at hb
    rw [hTasks]
    by_cases hteq : t = (s.bids bidId).taskId
    · subst hteq
      rw [fupd_same]
      exact hInv.creator_nz _ ha hb
    · rw [fupd_other _ _ hteq]
      exact hInv.creator_nz t ha hb
  · intro t hterm
    rw [hTasks] at hterm
    rw [hDep]
    by_cases hteq : t = (s.bids bidId).taskId
    · subst hteq
      rw [fupd_same] at hterm
      exact absurd hterm (by simp [TaskStatus.isTerminal])
    · rw [fupd_other _ _ hteq] at hterm
      exact hInv.terminal_dep t hterm
  · rw [hHeld, hDep, hTC]
    exact hInv.held_eq
  · intro t hass
    rw [hTasks] at hass ⊢
    by_cases hteq : t = (s.bids bidId).taskId
    · subst hteq
      rw [fupd_same]
      exact hInv.bid_agent_nz bidId hrangeb.1 hrangeb.2
    · rw [fupd_other _ _ hteq] at hass ⊢
      exact hInv.assigned_nz t hass
  · intro t hst
    rw [hTasks] at hst ⊢
    by_cases hteq : t = (s.bids bidId).taskId
    · subst hteq
      rw [fupd_same] at hst
      exact absurd hst (by simp)
    · rw [fupd_other _ _ hteq] at hst ⊢
      exact hInv.open_agent t hst
  · intro t hnz
    rw [hTasks] at hnz ⊢
    by_cases hteq : t = (s.bids bidId).taskId
    · subst hteq
      rw [fupd_same] at hnz ⊢
      exact hInv.bid_agent_ne_creator bidId hrangeb.1 hrangeb.2
    · rw [fupd_other _ _ hteq] at hnz ⊢
      exact hInv.agent_ne_creator t hnz
  · intro t hst
    rw [hTasks] at hst ⊢
    rw [hDep]
    by_cases hteq : t = (s.bids bidId).taskId
    · subst hteq
      rw [fupd_same]
      exact hamtle
    · rw [fupd_other _ _ hteq] at hst ⊢
      exact hInv.inprog_dep t hst
  · intro b hb
    rw [hBC] at hb
    rw [hbidsP b, if_neg (by omega)]
    have hnmem : ¬(b ∈ s.taskBids ((s.bids bidId).taskId) ∧
        (s.bids b).status = .Pending) := by
      intro hx
      have := hInv.taskBids_mem _ b hx.1
      omega
    rw [if_neg hnmem]
    exact hInv.bid_oob b hb
  · intro b ha hb
    rw [hBC] at hb
    rw [(hfieldsB b).1]
    exact hInv.bid_id b ha hb
  · intro b ha hb
    rw [hBC] at hb
    rw [(hfieldsB b).2.1]
    exact hInv.bid_agent_nz b ha hb
  · intro b ha hb
    rw [hBC] at hb
    rw [(hfieldsB b).2.2.1, hTC]
    exact hInv.bid_tid_range b ha hb
  · intro b ha hb
    rw [hBC] at hb
    rw [(hfieldsB b).2.1, (hfieldsB b).2.2.1, hTasks]
    by_cases hteq : (s.bids b).taskId = (s.bids bidId).taskId
    · rw [hteq, fupd_same]
      have := hInv.bid_agent_ne_creator b ha hb
      rw [hteq] at this
      exact this
    · rw [fupd_other _ _ hteq]
      exact hInv.bid_agent_ne_creator b ha hb
  · intro b ha hb
    rw [hBC] at hb
    rw [(hfieldsB b).2.2.1, hTB]
    exact hInv.bid_mem b ha hb
  · intro t b hmem'
    rw [hTB] at hmem'
    rw [hBC, (hfieldsB b).2.2.1]
    exact hInv.taskBids_mem t b hmem'
  · intro t b hst hmem'
    rw [hTasks] at hst
    rw [hTB] at hmem'
    by_cases hteq : t = (s.bids bidId).taskId
    · subst hteq
      rw [fupd_same] at hst
      exact absurd hst (by simp)
    · rw [fupd_other _ _ hteq] at hst
      have htaskIdb := (hInv.taskBids_mem t b hmem').2.2
      have hbne : b ≠ bidId := by
        intro hbeq
        subst hbeq
        exact hteq htaskIdb.symm
      intro hacc
      exact hInv.open_no_accepted t b hst hmem' (hAccOnly b hbne hacc)
  · intro t b1 b2 hm1 hm2 ha1 ha2
    rw [hTB] at hm1 hm2
    by_cases hteq : t = (s.bids bidId).taskId
    · subst hteq
      have honlyAcc : ∀ b, b ∈ s.taskBids ((s.bids bidId).taskId) →
          (s'.bids b).status = .Accepted → b = bidId := by
        intro b hmb hacc
        by_contra hbne
        have hold := hAccOnly b hbne hacc
        exact hInv.open_no_accepted _ b hopen hmb hold
      rw [honlyAcc b1 hm1 ha1, honlyAcc b2 hm2 ha2]
    · have hb1 : b1 ≠ bidId := by
        intro hbeq
        subst hbeq
        exact hteq ((hInv.taskBids_mem t b1 hm1).2.2).symm
      have hb2 : b2 ≠ bidId := by
        intro hbeq
        subst hbeq
        exact hteq ((hInv.taskBids_mem t b2 hm2).2.2).symm
      exact hInv.accepted_unique t b1 b2 hm1 hm2 (hAccOnly b1 hb1 ha1)
        (hAccOnly b2 hb2 ha2)


/-- Every reachable TaskEscrow state satisfies the inductive invariant. -/
theorem reach_inv {s : State} (h : Reach s) : Inv s := by
  induction h with
  | init owner bal => exact inv_init owner bal
  | stepCreateTask hr hc hok ih => exact inv_createTask ih hc hok
  | stepDepositEscrow hr hc hok ih => exact inv_depositEscrow ih hok
  | stepSubmitBid hr hc hok ih => exact inv_submitBid ih hc hok
  | stepAcceptBid hr hc hok ih => exact inv_acceptBid ih hc hok
  | stepRejectBid hr hc hok ih => exact inv_rejectBid ih hc hok
  | stepWithdrawBid hr hc hok ih => exact inv_withdrawBid ih hc hok
  | stepCompleteTask hr hc hok ih => exact inv_completeTask ih hok
  | stepApproveAndRelease hr hc hok ih => exact inv_approveAndRelease ih hok
  | stepRaiseDispute hr hc hok ih => exact inv_raiseDispute ih hok
  | stepResolveDispute hr hc hok ih => exact inv_resolveDispute ih hok
  | stepCancelTask hr hc hok ih => exact inv_cancelTask ih hc hok

/-- Token balances for the demo runs: creator `1` and agent `2` start with
1000 tokens. -/
def demoBal : Nat → Nat := fun a => if a = 1 ∨ a = 2 then 1000 else 0

/-- Demo: freshly deployed contract, owner `99`. -/
def demo0 : State := initState 99 demoBal

/-- Demo: address 1 creates task 1 (reward 50, deadline 10) at time 5. -/
def demo1 : State :=
  match createTask demo0 1 5 "t" "d" 50 10 with
  | .ok (s, _) => s
  | .error _ => demo0

/-- Demo: the creator deposits 50 into escrow for task 1. -/
def demo2 : State :=
  match depositEscrow demo1 1 1 50 with
  | .ok s => s
  | .error _ => demo1

/-- Demo: address 2 bids 40 on task 1 at time 6. -/
def demo3 : State :=
  match submitBid demo2 2 6 1 40 "m" with
  | .ok (s, _) => s
  | .error _ => demo2

/-- Demo: the creator accepts bid 1. -/
def demo4 : State :=
  match acceptBid demo3 1 1 with
  | .ok s => s
  | .error _ => demo3

/-- Demo: the assigned agent completes task 1 at time 7. -/
def demo5 : State :=
  match completeTask demo4 2 7 1 "hash" with
  | .ok s => s
  | .error _ => demo4

/-- Demo: the creator raises a dispute on the completed task. -/
def demo6 : State :=
  match raiseDispute demo5 1 1 with
  | .ok s => s
  | .error _ => demo5

/-- Demo: the creator cancels task 1 right after acceptance (from demo4). -/
def demoCancelled : State :=
  match cancelTask demo4 1 1 with
  | .ok s => s
  | .error _ => demo4

theorem reach_demo0 : Reach demo0 := Reach.init 99 demoBal

theorem reach_demo1 : Reach demo1 :=
  Reach.stepCreateTask reach_demo0 (by decide)
    (show createTask demo0 1 5 "t" "d" 50 10 = .ok (demo1, 1) from rfl)

theorem reach_demo2 : Reach demo2 :=
  Reach.stepDepositEscrow reach_demo1 (by decide)
    (show depositEscrow demo1 1 1 50 = .ok demo2 from rfl)

theorem reach_demo3 : Reach demo3 :=
  Reach.stepSubmitBid reach_demo2 (by decide)
    (show submitBid demo2 2 6 1 40 "m" = .ok (demo3, 1) from rfl)

theorem reach_demo4 : Reach demo4 :=
  Reach.stepAcceptBid reach_demo3 (by decide)
    (show acceptBid demo3 1 1 = .ok demo4 from rfl)

theorem reach_demo5 : Reach demo5 :=
  Reach.stepCompleteTask reach_demo4 (by decide)
    (show completeTask demo4 2 7 1 "hash" = .ok demo5 from rfl)

theorem reach_demo6 : Reach demo6 :=
  Reach.stepRaiseDispute reach_demo5 (by decide)
    (show raiseDispute demo5 1 1 = .ok demo6 from rfl)

theorem reach_demoCancelled : Reach demoCancelled :=
  Reach.stepCancelTask reach_demo4 (by decide)
    (show cancelTask demo4 1 1 = .ok demoCancelled from rfl)


/-- C1: value conservation.  In every reachable TaskEscrow state the
contract's held token balance equals the sum of `deposits[taskId]` over all
non-terminal tasks (terminal tasks contribute zero to the sum), and every
terminal task's deposit entry is zero — so every operation preserves exact
accounting of deposited value. -/
theorem C1_value_conservation (s : State) (hs : Reach s) :
    s.held = sumTo
      (fun t => if (s.tasks t).status.isTerminal = true then 0 else s.deposits t)
      s.taskCounter ∧
    ∀ t, (s.tasks t).status.isTerminal = true → s.deposits t = 0 := by
  have hInv := reach_inv hs
  constructor
  · rw [hInv.held_eq]
    apply sumTo_congr
    intro i h1 h2
    by_cases hterm : (s.tasks i).status.isTerminal = true
    · rw [if_pos hterm, hInv.terminal_dep i hterm]
    · rw [if_neg hterm]
  · exact hInv.terminal_dep

theorem C1_value_conservation_witness :
    Reach demo2 ∧
    (demo2.held = sumTo
      (fun t => if (demo2.tasks t).status.isTerminal = true then 0
                else demo2.deposits t) demo2.taskCounter ∧
     ∀ t, (demo2.tasks t).status.isTerminal = true → demo2.deposits t = 0) :=
  ⟨reach_demo2, C1_value_conservation demo2 reach_demo2⟩

/-- C6 counterexample: the claimed biconditional "assignedAgent is set iff
status ∈ {InProgress, Completed, Disputed, Finalized}" fails on the code.
`cancelTask` on an `InProgress` task sets status `Cancelled` without clearing
`assignedAgent`; the state reached by create → deposit → bid → accept →
cancel has task 1 Cancelled with assignedAgent = 2 ≠ 0. -/
theorem C6_assigned_iff_counterexample :
    Reach demoCancelled ∧ (demoCancelled.tasks 1).status = .Cancelled ∧
    (demoCancelled.tasks 1).assignedAgent ≠ 0 :=
  ⟨reach_demoCancelled, rfl, by decide⟩

/-- C6 amended: in every reachable state, every task whose status is in
{InProgress, Completed, Disputed, Finalized} has a nonzero assignedAgent, and
every Open task has assignedAgent zero; a task cancelled from InProgress
retains its agent, so Cancelled tasks may have either. -/
theorem C6_assigned_agent_amended (s : State) (hs : Reach s) (t : Nat) :
    ((s.tasks t).status.isAssigned = true → (s.tasks t).assignedAgent ≠ 0) ∧
    ((s.tasks t).status = .Open → (s.tasks t).assignedAgent = 0) :=
  ⟨(reach_inv hs).assigned_nz t, (reach_inv hs).open_agent t⟩

theorem C6_assigned_agent_amended_witness :
    Reach demo4 ∧
    (((demo4.tasks 1).status.isAssigned = true →
        (demo4.tasks 1).assignedAgent ≠ 0) ∧
     ((demo4.tasks 1).status = .Open → (demo4.tasks 1).assignedAgent = 0)) :=
  ⟨reach_demo4, C6_assigned_agent_amended demo4 reach_demo4 1⟩


/-- C3: `approveAndRelease` postcondition.  For a reachable state with a
`Completed` task whose caller is the creator: when the escrow covers the
reward, the call succeeds, zeroes the deposit entry (before the transfers, per
the checks-effects-interactions ordering of the source), pays exactly the
reward to the assigned agent, refunds exactly the surplus to the creator, and
finalizes the task; when the escrow is short, it fails with
`InsufficientEscrow` (the FundsError) and — by revert semantics — changes
nothing. -/
theorem C3_approveAndRelease (s : State) (hs : Reach s) (tid caller : Nat)
    (hst : (s.tasks tid).status = .Completed)
    (hcr : (s.tasks tid).creator = caller) :
    ((s.tasks tid).reward ≤ s.deposits tid →
      ∃ s', approveAndRelease s caller tid = .ok s' ∧
        s'.deposits tid = 0 ∧
        (s'.tasks tid).status = .Finalized ∧
        s'.balances (s.tasks tid).assignedAgent =
          s.balances (s.tasks tid).assignedAgent + (s.tasks tid).reward ∧
        s'.balances caller =
          s.balances caller + (s.deposits tid - (s.tasks tid).reward) ∧
        s'.held = s.held - s.deposits tid) ∧
    (s.deposits tid < (s.tasks tid).reward →
      approveAndRelease s caller tid = .error .InsufficientEscrow) := by
  have hInv := reach_inv hs
  have hag : (s.tasks tid).assignedAgent ≠ 0 :=
    hInv.assigned_nz tid (by rw [hst]; rfl)
  have hrange := task_range_of_status hInv (by rw [hst]; simp)
  have hheld : s.deposits tid ≤ s.held := by
    rw [hInv.held_eq]
    exact le_sumTo hrange.1 hrange.2
  have hAC : (s.tasks tid).assignedAgent ≠ (s.tasks tid).creator :=
    hInv.agent_ne_creator tid hag
  constructor
  · intro hrew
    unfold approveAndRelease
    dsimp only [payOut]
    rw [if_neg (not_not_intro hcr), if_neg (not_not_intro hst),
      if_neg (by omega : ¬s.deposits tid < (s.tasks tid).reward), if_neg hag,
      if_neg (by omega : ¬s.held < (s.tasks tid).reward)]
    by_cases hsur : (s.tasks tid).reward < s.deposits tid
    · rw [if_pos hsur,
        if_neg (by omega :
          ¬s.held - (s.tasks tid).reward <
            s.deposits tid - (s.tasks tid).reward)]
      refine ⟨_, rfl, ?_, ?_, ?_, ?_, ?_⟩
      · exact fupd_same s.deposits tid 0
      · show ((fupd s.tasks tid
          ({ s.tasks tid with status := .Finalized })) tid).status = .Finalized
        rw [fupd_same]
      · show fupd
            (fupd s.balances (s.tasks tid).assignedAgent
              (s.balances (s.tasks tid).assignedAgent + (s.tasks tid).reward))
            (s.tasks tid).creator
            ((fupd s.balances (s.tasks tid).assignedAgent
              (s.balances (s.tasks tid).assignedAgent + (s.tasks tid).reward))
              (s.tasks tid).creator + (s.deposits tid - (s.tasks tid).reward))
            (s.tasks tid).assignedAgent =
          s.balances (s.tasks tid).assignedAgent + (s.tasks tid).reward
        rw [fupd_other _ _ hAC, fupd_same]
      · rw [← hcr]
        show fupd
            (fupd s.balances (s.tasks tid).assignedAgent
              (s.balances (s.tasks tid).assignedAgent + (s.tasks tid).reward))
            (s.tasks tid).creator
            ((fupd s.balances (s.tasks tid).assignedAgent
              (s.balances (s.tasks tid).assignedAgent + (s.tasks tid).reward))
              (s.tasks tid).creator + (s.deposits tid - (s.tasks tid).reward))
            (s.tasks tid).creator =
          s.balances (s.tasks tid).creator +
            (s.deposits tid - (s.tasks tid).reward)
        rw [fupd_same, fupd_other _ _ (Ne.symm hAC)]
      · show s.held - (s.tasks tid).reward -
            (s.deposits tid - (s.tasks tid).reward) = s.held - s.deposits tid
        omega
    · rw [if_neg hsur]
      have hpr : s.deposits tid = (s.tasks tid).reward := by omega
      refine ⟨_, rfl, ?_, ?_, ?_, ?_, ?_⟩
      · exact fupd_same s.deposits tid 0
      · show ((fupd s.tasks tid
          ({ s.tasks tid with status := .Finalized })) tid).status = .Finalized
        rw [fupd_same]
      · show fupd s.balances (s.tasks tid).assignedAgent
            (s.balances (s.tasks tid).assignedAgent + (s.tasks tid).reward)
            (s.tasks tid).assignedAgent =
          s.balances (s.tasks tid).assignedAgent + (s.tasks tid).reward
        rw [fupd_same]
      · rw [← hcr]
        show fupd s.balances (s.tasks tid).assignedAgent
            (s.balances (s.tasks tid).assignedAgent + (s.tasks tid).reward)
            (s.tasks tid).creator =
          s.balances (s.tasks tid).creator +
            (s.deposits tid - (s.tasks tid).reward)
        rw [fupd_other _ _ (Ne.symm hAC)]
        omega
      · show s.held - (s.tasks tid).reward = s.held - s.deposits tid
        omega
  · intro hlt
    unfold approveAndRelease
    dsimp only
    rw [if_neg (not_not_intro hcr), if_neg (not_not_intro hst), if_pos hlt]

theorem C3_approveAndRelease_witness :
    (Reach demo5 ∧ (demo5.tasks 1).status = .Completed ∧
      (demo5.tasks 1).creator = 1) ∧
    (((demo5.tasks 1).reward ≤ demo5.deposits 1 →
      ∃ s', approveAndRelease demo5 1 1 = .ok s' ∧
        s'.deposits 1 = 0 ∧
        (s'.tasks 1).status = .Finalized ∧
        s'.balances (demo5.tasks 1).assignedAgent =
          demo5.balances (demo5.tasks 1).assignedAgent + (demo5.tasks 1).reward ∧
        s'.balances 1 =
          demo5.balances 1 + (demo5.deposits 1 - (demo5.tasks 1).reward) ∧
        s'.held = demo5.held - demo5.deposits 1) ∧
    (demo5.deposits 1 < (demo5.tasks 1).reward →
      approveAndRelease demo5 1 1 = .error .InsufficientEscrow)) :=
  ⟨⟨reach_demo5, rfl, rfl⟩, C3_approveAndRelease demo5 reach_demo5 1 1 rfl rfl⟩


/-- C4: `acceptBid` postcondition and single-winner invariant.  (1) In a
reachable state, a successful `acceptBid` marks the bid `Accepted`, assigns
the bid's agent and amount to the task, moves the task to `InProgress`, and in
the same operation moves every other still-`Pending` bid of that task to
`Rejected`.  (2) With the bid `Pending`, the task `Open`, the caller the
creator and the escrow short of the bid amount, it fails with
`InsufficientEscrow` (revert semantics: no state change).  (3) Consequently at
most one bid per task is ever `Accepted` in any reachable state. -/
theorem C4_acceptBid :
    (∀ s s' : State, ∀ caller bidId : Nat, Reach s → caller ≠ 0 →
      acceptBid s caller bidId = .ok s' →
      (s'.bids bidId).status = .Accepted ∧
      (s'.tasks ((s.bids bidId).taskId)).assignedAgent = (s.bids bidId).agent ∧
      (s'.tasks ((s.bids bidId).taskId)).reward = (s.bids bidId).amount ∧
      (s'.tasks ((s.bids bidId).taskId)).status = .InProgress ∧
      ∀ b, b ∈ s.taskBids ((s.bids bidId).taskId) → b ≠ bidId →
        (s.bids b).status = .Pending → (s'.bids b).status = .Rejected) ∧
    (∀ s : State, ∀ caller bidId : Nat,
      (s.bids bidId).id = bidId → (s.bids bidId).status = .Pending →
      (s.tasks ((s.bids bidId).taskId)).creator = caller →
      (s.tasks ((s.bids bidId).taskId)).status = .Open →
      s.deposits ((s.bids bidId).taskId) < (s.bids bidId).amount →
      acceptBid s caller bidId = .error .InsufficientEscrow) ∧
    (∀ s : State, Reach s → ∀ t b1 b2 : Nat,
      b1 ∈ s.taskBids t → b2 ∈ s.taskBids t →
      (s.bids b1).status = .Accepted → (s.bids b2).status = .Accepted →
      b1 = b2) := by
  refine ⟨?_, ?_, ?_⟩
  · intro s s' caller bidId hs hc h
    have hInv := reach_inv hs
    obtain ⟨hid, hpend, hcr, hopen, hamtle, hOw, hTC, hBC, hTasks, hBids, hTB,
      hDep, hHeld, hBal⟩ := acceptBid_ok h
    have hrangeb : 1 ≤ bidId ∧ bidId ≤ s.bidCounter := by
      by_contra hx
      have hoob : bidId = 0 ∨ s.bidCounter < bidId := by omega
      have hd := hInv.bid_oob bidId hoob
      rcases hoob with h0 | hgt
      · subst h0
        rw [hd] at hcr
        have ht0 : (s.tasks (dBid.taskId)).creator = 0 := by
          rw [show (dBid.taskId : Nat) = 0 from rfl,
            hInv.task_oob 0 (Or.inl rfl)]
          rfl
        exact hc (hcr.symm.trans ht0)
      · rw [hd] at hid
        have hz : (dBid.id : Nat) = 0 := rfl
        omega
    have hmem := hInv.bid_mem bidId hrangeb.1 hrangeb.2
    have hbidsP := acceptBid_bids_eq hmem h
    refine ⟨?_, ?_, ?_, ?_, ?_⟩
    · rw [hbidsP bidId, if_pos rfl]
    · rw [hTasks, fupd_same]
    · rw [hTasks, fupd_same]
    · rw [hTasks, fupd_same]
    · intro b hbm hbne hbpend
      rw [hbidsP b, if_neg hbne, if_pos ⟨hbm, hbpend⟩]
  · intro s caller bidId hid hpend hcr hopen hlt
    unfold acceptBid
    dsimp only
    rw [if_neg (not_not_intro hid), if_neg (not_not_intro hpend),
      if_neg (not_not_intro hcr), if_neg (not_not_intro hopen), if_pos hlt]
  · intro s hs
    exact (reach_inv hs).accepted_unique

theorem C4_acceptBid_witness :
    (Reach demo3 ∧ acceptBid demo3 1 1 = .ok demo4) ∧
    ((demo4.bids 1).status = .Accepted ∧
     (demo4.tasks ((demo3.bids 1).taskId)).assignedAgent = (demo3.bids 1).agent ∧
     (demo4.tasks ((demo3.bids 1).taskId)).reward = (demo3.bids 1).amount ∧
     (demo4.tasks ((demo3.bids 1).taskId)).status = .InProgress ∧
     ∀ b, b ∈ demo3.taskBids ((demo3.bids 1).taskId) → b ≠ 1 →
       (demo3.bids b).status = .Pending → (demo4.bids b).status = .Rejected) :=
  ⟨⟨reach_demo3, rfl⟩,
    C4_acceptBid.1 demo3 demo4 1 1 reach_demo3 (by decide) rfl⟩


/-- Demo (dispute run): address 1 creates task 1 with reward 100. -/
def demoD1 : State :=
  match createTask demo0 1 5 "t" "d" 100 10 with
  | .ok (s, _) => s
  | .error _ => demo0

/-- Demo (dispute run): the creator deposits 100. -/
def demoD2 : State :=
  match depositEscrow demoD1 1 1 100 with
  | .ok s => s
  | .error _ => demoD1

/-- Demo (dispute run): address 2 bids 100. -/
def demoD3 : State :=
  match submitBid demoD2 2 6 1 100 "m" with
  | .ok (s, _) => s
  | .error _ => demoD2

/-- Demo (dispute run): the creator accepts the bid. -/
def demoD4 : State :=
  match acceptBid demoD3 1 1 with
  | .ok s => s
  | .error _ => demoD3

/-- Demo (dispute run): the creator raises a dispute from InProgress. -/
def demoD5 : State :=
  match raiseDispute demoD4 1 1 with
  | .ok s => s
  | .error _ => demoD4

theorem reach_demoD1 : Reach demoD1 :=
  Reach.stepCreateTask reach_demo0 (by decide)
    (show createTask demo0 1 5 "t" "d" 100 10 = .ok (demoD1, 1) from rfl)

theorem reach_demoD2 : Reach demoD2 :=
  Reach.stepDepositEscrow reach_demoD1 (by decide)
    (show depositEscrow demoD1 1 1 100 = .ok demoD2 from rfl)

theorem reach_demoD3 : Reach demoD3 :=
  Reach.stepSubmitBid reach_demoD2 (by decide)
    (show submitBid demoD2 2 6 1 100 "m" = .ok (demoD3, 1) from rfl)

theorem reach_demoD4 : Reach demoD4 :=
  Reach.stepAcceptBid reach_demoD3 (by decide)
    (show acceptBid demoD3 1 1 = .ok demoD4 from rfl)

theorem reach_demoD5 : Reach demoD5 :=
  Reach.stepRaiseDispute reach_demoD4 (by decide)
    (show raiseDispute demoD4 1 1 = .ok demoD5 from rfl)

/-- C5: dispute split arithmetic.  For a reachable state with a Disputed task
and the arbitration authority calling: with `creatorPercent ≤ 100` the call
succeeds, the floor-division split exhausts the balance exactly
(creatorAmount + agentAmount = balance), both parties are paid those amounts,
the escrow entry is zeroed and the task finalized; `creatorPercent > 100`
fails with `InvalidPercentage`; and the `winner` argument never affects the
result. -/
theorem C5_resolveDispute (s : State) (hs : Reach s) (tid caller winner pct : Nat)
    (hst : (s.tasks tid).status = .Disputed) (hown : caller = s.owner) :
    (pct ≤ 100 →
      ∃ s', resolveDispute s caller tid winner pct = .ok s' ∧
        s.deposits tid * pct / 100 +
          (s.deposits tid - s.deposits tid * pct / 100) = s.deposits tid ∧
        s'.deposits tid = 0 ∧
        (s'.tasks tid).status = .Finalized ∧
        s'.balances (s.tasks tid).creator =
          s.balances (s.tasks tid).creator + s.deposits tid * pct / 100 ∧
        s'.balances (s.tasks tid).assignedAgent =
          s.balances (s.tasks tid).assignedAgent +
            (s.deposits tid - s.deposits tid * pct / 100) ∧
        s'.held = s.held - s.deposits tid) ∧
    (100 < pct →
      resolveDispute s caller tid winner pct = .error .InvalidPercentage) ∧
    (∀ w1 w2 : Nat,
      resolveDispute s caller tid w1 pct = resolveDispute s caller tid w2 pct) := by
  have hInv := reach_inv hs
  have hag : (s.tasks tid).assignedAgent ≠ 0 :=
    hInv.assigned_nz tid (by rw [hst]; rfl)
  have hrange := task_range_of_status hInv (by rw [hst]; simp)
  have hheld : s.deposits tid ≤ s.held := by
    rw [hInv.held_eq]
    exact le_sumTo hrange.1 hrange.2
  have hAC : (s.tasks tid).assignedAgent ≠ (s.tasks tid).creator :=
    hInv.agent_ne_creator tid hag
  refine ⟨?_, ?_, ?_⟩
  · intro hpct
    have hcAle : s.deposits tid * pct / 100 ≤ s.deposits tid := by
      calc s.deposits tid * pct / 100
          ≤ s.deposits tid * 100 / 100 :=
            Nat.div_le_div_right (Nat.mul_le_mul_left _ hpct)
        _ = s.deposits tid := Nat.mul_div_cancel _ (by norm_num)
    cases hres : resolveDispute s caller tid winner pct with
    | error e =>
      unfold resolveDispute at hres
      dsimp only [payOut] at hres
      rw [if_neg (not_not_intro hown), if_neg (not_not_intro hst),
        if_neg (by omega : ¬100 < pct)] at hres
      by_cases c4 : 0 < s.deposits tid * pct / 100
      · rw [if_pos c4,
          if_neg (by omega : ¬s.held < s.deposits tid * pct / 100)] at hres
        by_cases c6 : 0 < s.deposits tid - s.deposits tid * pct / 100 ∧
            (s.tasks tid).assignedAgent ≠ 0
        · rw [if_pos c6,
            if_neg (by omega : ¬s.held - s.deposits tid * pct / 100 <
              s.deposits tid - s.deposits tid * pct / 100)] at hres
          exact absurd hres (by simp)
        · rw [if_neg c6] at hres
          exact absurd hres (by simp)
      · rw [if_neg c4] at hres
        by_cases c6 : 0 < s.deposits tid - s.deposits tid * pct / 100 ∧
            (s.tasks tid).assignedAgent ≠ 0
        · rw [if_pos c6,
            if_neg (by omega :
              ¬s.held < s.deposits tid - s.deposits tid * pct / 100)] at hres
          exact absurd hres (by simp)
        · rw [if_neg c6] at hres
          exact absurd hres (by simp)
    | ok s'' =>
      obtain ⟨hown', hst', hpct', hdh, hOw, hTC, hBC, hTasks, hBids, hTB, hDep,
        hHeld, hBal⟩ := resolveDispute_ok hag hres
      refine ⟨s'', rfl, by omega, ?_, ?_, ?_, ?_, ?_⟩
      · rw [hDep]
        exact fupd_same s.deposits tid 0
      · rw [hTasks, fupd_same]
      · simp only [hBal]
        rw [fupd_other _ _ (Ne.symm hAC), fupd_same]
      · simp only [hBal]
        rw [fupd_same, fupd_other _ _ hAC]
      · exact hHeld
  · intro hpct
    unfold resolveDispute
    dsimp only
    rw [if_neg (not_not_intro hown), if_neg (not_not_intro hst), if_pos hpct]
  · intro w1 w2
    rfl

theorem C5_resolveDispute_witness :
    (Reach demoD5 ∧ (demoD5.tasks 1).status = .Disputed ∧
      (99 : Nat) = demoD5.owner ∧ demoD5.deposits 1 = 100 ∧
      demoD5.deposits 1 * 60 / 100 = 60 ∧
      demoD5.deposits 1 - demoD5.deposits 1 * 60 / 100 = 40) ∧
    ((60 ≤ 100 →
      ∃ s', resolveDispute demoD5 99 1 7 60 = .ok s' ∧
        demoD5.deposits 1 * 60 / 100 +
          (demoD5.deposits 1 - demoD5.deposits 1 * 60 / 100) =
            demoD5.deposits 1 ∧
        s'.deposits 1 = 0 ∧
        (s'.tasks 1).status = .Finalized ∧
        s'.balances (demoD5.tasks 1).creator =
          demoD5.balances (demoD5.tasks 1).creator +
            demoD5.deposits 1 * 60 / 100 ∧
        s'.balances (demoD5.tasks 1).assignedAgent =
          demoD5.balances (demoD5.tasks 1).assignedAgent +
            (demoD5.deposits 1 - demoD5.deposits 1 * 60 / 100) ∧
        s'.held = demoD5.held - demoD5.deposits 1) ∧
    (100 < 60 →
      resolveDispute demoD5 99 1 7 60 = .error .InvalidPercentage) ∧
    (∀ w1 w2 : Nat,
      resolveDispute demoD5 99 1 w1 60 = resolveDispute demoD5 99 1 w2 60)) :=
  ⟨⟨reach_demoD5, rfl, rfl, rfl, by decide, by decide⟩,
    C5_resolveDispute demoD5 reach_demoD5 1 99 7 60 rfl rfl⟩


/-- What must have held when `acceptBid` reverted with `InsufficientEscrow`:
all earlier guards passed and the escrow was short of the bid amount. -/
theorem acceptBid_insufficient {s : State} {caller bidId : Nat}
    (h : acceptBid s caller bidId = .error .InsufficientEscrow) :
    (s.bids bidId).id = bidId ∧ (s.bids bidId).status = .Pending ∧
    (s.tasks ((s.bids bidId).taskId)).creator = caller ∧
    (s.tasks ((s.bids bidId).taskId)).status = .Open ∧
    s.deposits ((s.bids bidId).taskId) < (s.bids bidId).amount := by
  unfold acceptBid at h
  dsimp only at h
  by_cases c1 : (s.bids bidId).id ≠ bidId
  · rw [if_pos c1] at h
    simp at h
  rw [if_neg c1] at h
  by_cases c2 : (s.bids bidId).status ≠ .Pending
  · rw [if_pos c2] at h
    simp at h
  rw [if_neg c2] at h
  by_cases c3 : (s.tasks ((s.bids bidId).taskId)).creator ≠ caller
  · rw [if_pos c3] at h
    simp at h
  rw [if_neg c3] at h
  by_cases c4 : (s.tasks ((s.bids bidId).taskId)).status ≠ .Open
  · rw [if_pos c4] at h
    simp at h
  rw [if_neg c4] at h
  by_cases c5 : s.deposits ((s.bids bidId).taskId) < (s.bids bidId).amount
  · push_neg at c1 c2 c3 c4
    exact ⟨c1, c2, c3, c4, c5⟩
  · rw [if_neg c5] at h
    simp at h

/-- What must have held when `approveAndRelease` reverted with
`InsufficientEscrow`: the caller was the creator and the task `Completed`. -/
theorem approveAndRelease_insufficient {s : State} {caller tid : Nat}
    (h : approveAndRelease s caller tid = .error .InsufficientEscrow) :
    (s.tasks tid).creator = caller ∧ (s.tasks tid).status = .Completed := by
  unfold approveAndRelease at h
  dsimp only [payOut] at h
  by_cases c1 : (s.tasks tid).creator ≠ caller
  · rw [if_pos c1] at h
    simp at h
  rw [if_neg c1] at h
  by_cases c2 : (s.tasks tid).status ≠ .Completed
  · rw [if_pos c2] at h
    simp at h
  push_neg at c1 c2
  exact ⟨c1, c2⟩

/-- A raw (hypothetical) Completed task whose escrow is short of the reward:
deposits 10 against reward 40. -/
def sBadTask : Task :=
  { dTask with
    id := 1, creator := 1, assignedAgent := 2, reward := 40,
    status := .Completed, title := "t" }

def sBad : State :=
  { owner := 9, taskCounter := 1, bidCounter := 0,
    tasks := fupd (fun _ => dTask) 1 sBadTask,
    bids := fun _ => dBid, taskBids := fun _ => [],
    creatorTasks := fun _ => [], agentTasks := fun _ => [],
    deposits := fupd (fun _ => 0) 1 10, held := 10, balances := fun _ => 0 }

/-- C7 counterexample: right after `approveAndRelease` raises
`InsufficientEscrow` on a Completed task, `cancelTask` by the same creator
does NOT succeed — it reverts with `CannotCancel`, because Completed is not a
cancellable status.  The claimed "funds remain recoverable via cancelTask"
fails for this case. -/
theorem C7_funds_error_counterexample :
    approveAndRelease sBad 1 1 = .error .InsufficientEscrow ∧
    cancelTask sBad 1 1 = .error .CannotCancel :=
  ⟨rfl, rfl⟩

/-- Demo (short-escrow run): create task with reward 50. -/
def demoL1 : State :=
  match createTask demo0 1 5 "t" "d" 50 10 with
  | .ok (s, _) => s
  | .error _ => demo0

/-- Demo (short-escrow run): the creator deposits only 30. -/
def demoL2 : State :=
  match depositEscrow demoL1 1 1 30 with
  | .ok s => s
  | .error _ => demoL1

/-- Demo (short-escrow run): address 2 bids 40, exceeding the escrow. -/
def demoL3 : State :=
  match submitBid demoL2 2 6 1 40 "msg" with
  | .ok (s, _) => s
  | .error _ => demoL2

theorem reach_demoL1 : Reach demoL1 :=
  Reach.stepCreateTask reach_demo0 (by decide)
    (show createTask demo0 1 5 "t" "d" 50 10 = .ok (demoL1, 1) from rfl)

theorem reach_demoL2 : Reach demoL2 :=
  Reach.stepDepositEscrow reach_demoL1 (by decide)
    (show depositEscrow demoL1 1 1 30 = .ok demoL2 from rfl)

theorem reach_demoL3 : Reach demoL3 :=
  Reach.stepSubmitBid reach_demoL2 (by decide)
    (show submitBid demoL2 2 6 1 40 "msg" = .ok (demoL3, 1) from rfl)

/-- C7 amended: a FundsError leaves no state change (revert semantics of the
embedding).  When `acceptBid` raises it the task is still Open and the funds
are recoverable by the creator via `cancelTask`, which refunds the full
remaining escrow.  When `approveAndRelease` raises it the task is Completed
and `cancelTask` instead fails with `CannotCancel`; moreover that situation is
unreachable, since in every reachable state a Completed task's escrow covers
its reward. -/
theorem C7_funds_error_amended :
    (∀ s : State, ∀ caller bidId : Nat, Reach s →
      acceptBid s caller bidId = .error .InsufficientEscrow →
      (s.tasks ((s.bids bidId).taskId)).status = .Open ∧
      ∃ s', cancelTask s caller ((s.bids bidId).taskId) = .ok s' ∧
        s'.deposits ((s.bids bidId).taskId) = 0 ∧
        (s'.tasks ((s.bids bidId).taskId)).status = .Cancelled ∧
        s'.balances ((s.tasks ((s.bids bidId).taskId)).creator) =
          s.balances ((s.tasks ((s.bids bidId).taskId)).creator) +
            s.deposits ((s.bids bidId).taskId)) ∧
    (∀ s : State, ∀ caller tid : Nat,
      approveAndRelease s caller tid = .error .InsufficientEscrow →
      cancelTask s caller tid = .error .CannotCancel) ∧
    (∀ s : State, Reach s → ∀ t, (s.tasks t).status = .Completed →
      (s.tasks t).reward ≤ s.deposits t) := by
  refine ⟨?_, ?_, ?_⟩
  · intro s caller bidId hs herr
    obtain ⟨hid, hpend, hcr, hopen, hlt⟩ := acceptBid_insufficient herr
    have hInv := reach_inv hs
    have hdh : s.deposits ((s.bids bidId).taskId) ≤ s.held := by
      by_cases hrng : 1 ≤ (s.bids bidId).taskId ∧
          (s.bids bidId).taskId ≤ s.taskCounter
      · rw [hInv.held_eq]
        exact le_sumTo hrng.1 hrng.2
      · have hoob : (s.bids bidId).taskId = 0 ∨
            s.taskCounter < (s.bids bidId).taskId := by
          rcases Nat.eq_zero_or_pos ((s.bids bidId).taskId) with h0 | hpos
          · exact Or.inl h0
          · right
            by_contra hle
            exact hrng ⟨hpos, by omega⟩
        rw [hInv.dep_oob _ hoob]
        exact Nat.zero_le _
    refine ⟨hopen, ?_⟩
    unfold cancelTask
    dsimp only [payOut]
    rw [if_neg (not_not_intro hcr), if_neg (fun hx => hx.1 hopen)]
    by_cases c3 : 0 < s.deposits ((s.bids bidId).taskId)
    · rw [if_pos c3,
        if_neg (by omega : ¬s.held < s.deposits ((s.bids bidId).taskId))]
      refine ⟨_, rfl, ?_, ?_, ?_⟩
      · exact fupd_same s.deposits _ 0
      · show ((fupd s.tasks ((s.bids bidId).taskId)
          ({ s.tasks ((s.bids bidId).taskId) with status := .Cancelled }))
          ((s.bids bidId).taskId)).status = .Cancelled
        rw [fupd_same]
      · exact fupd_same s.balances _ _
    · rw [if_neg c3]
      refine ⟨_, rfl, ?_, ?_, ?_⟩
      · exact fupd_same s.deposits _ 0
      · show ((fupd s.tasks ((s.bids bidId).taskId)
          ({ s.tasks ((s.bids bidId).taskId) with status := .Cancelled }))
          ((s.bids bidId).taskId)).status = .Cancelled
        rw [fupd_same]
      · show s.balances ((s.tasks ((s.bids bidId).taskId)).creator) =
          s.balances ((s.tasks ((s.bids bidId).taskId)).creator) +
            s.deposits ((s.bids bidId).taskId)
        omega
  · intro s caller tid herr
    obtain ⟨hcr, hst⟩ := approveAndRelease_insufficient herr
    unfold cancelTask
    dsimp only
    rw [if_neg (not_not_intro hcr),
      if_pos (⟨by rw [hst]; simp, by rw [hst]; simp⟩ :
        (s.tasks tid).status ≠ .Open ∧ (s.tasks tid).status ≠ .InProgress)]
  · intro s hs t hst
    exact (reach_inv hs).inprog_dep t (Or.inr (Or.inl hst))

theorem C7_funds_error_amended_witness :
    (Reach demoL3 ∧ acceptBid demoL3 1 1 = .error .InsufficientEscrow) ∧
    ((demoL3.tasks ((demoL3.bids 1).taskId)).status = .Open ∧
      ∃ s', cancelTask demoL3 1 ((demoL3.bids 1).taskId) = .ok s' ∧
        s'.deposits ((demoL3.bids 1).taskId) = 0 ∧
        (s'.tasks ((demoL3.bids 1).taskId)).status = .Cancelled ∧
        s'.balances ((demoL3.tasks ((demoL3.bids 1).taskId)).creator) =
          demoL3.balances ((demoL3.tasks ((demoL3.bids 1).taskId)).creator) +
            demoL3.deposits ((demoL3.bids 1).taskId)) :=
  ⟨⟨reach_demoL3, rfl⟩,
    C7_funds_error_amended.1 demoL3 1 1 reach_demoL3 rfl⟩

/-- C9: `createTask` validation and id monotonicity.  It fails with one of the
three validation errors exactly when the title is empty, the reward is zero
(`uint256` cannot be negative), or the deadline is not strictly in the future;
on success it returns id `taskCounter + 1` and a fresh task that is Open, owned
by the caller, carries that id, and (in a reachable state) the new id strictly
exceeds every previously assigned task id. -/
theorem C9_createTask (s : State) (caller now reward deadline : Nat)
    (title descr : String) :
    ((title = "" ∨ reward = 0 ∨ deadline ≤ now) →
      ∃ e, createTask s caller now title descr reward deadline = .error e ∧
        (e = Err.TitleRequired ∨ e = Err.RewardMustBePositive ∨
          e = Err.DeadlineMustBeInFuture)) ∧
    (title ≠ "" → reward ≠ 0 → now < deadline →
      ∃ s', createTask s caller now title descr reward deadline =
          .ok (s', s.taskCounter + 1) ∧
        s'.taskCounter = s.taskCounter + 1 ∧
        (s'.tasks (s.taskCounter + 1)).status = .Open ∧
        (s'.tasks (s.taskCounter + 1)).creator = caller ∧
        (s'.tasks (s.taskCounter + 1)).id = s.taskCounter + 1 ∧
        (Reach s → ∀ t, 1 ≤ t → t ≤ s.taskCounter →
          (s.tasks t).id < s.taskCounter + 1)) := by
  constructor
  · intro hbad
    unfold createTask
    by_cases h1 : title = ""
    · rw [if_pos h1]
      exact ⟨_, rfl, Or.inl rfl⟩
    rw [if_neg h1]
    by_cases h2 : reward = 0
    · rw [if_pos h2]
      exact ⟨_, rfl, Or.inr (Or.inl rfl)⟩
    rw [if_neg h2]
    by_cases h3 : deadline ≤ now
    · rw [if_pos h3]
      exact ⟨_, rfl, Or.inr (Or.inr rfl)⟩
    · exact absurd hbad (by tauto)
  · intro h1 h2 h3
    unfold createTask
    rw [if_neg h1, if_neg h2, if_neg (by omega : ¬deadline ≤ now)]
    refine ⟨_, rfl, rfl, ?_, ?_, ?_, ?_⟩
    · show ((fupd s.tasks (s.taskCounter + 1)
        ({ s.tasks (s.taskCounter + 1) with
           id := s.taskCounter + 1, creator := caller, reward := reward,
           deadline := deadline, status := .Open, title := title,
           description := descr, createdAt := now }))
        (s.taskCounter + 1)).status = .Open
      rw [fupd_same]
    · show ((fupd s.tasks (s.taskCounter + 1)
        ({ s.tasks (s.taskCounter + 1) with
           id := s.taskCounter + 1, creator := caller, reward := reward,
           deadline := deadline, status := .Open, title := title,
           description := descr, createdAt := now }))
        (s.taskCounter + 1)).creator = caller
      rw [fupd_same]
    · show ((fupd s.tasks (s.taskCounter + 1)
        ({ s.tasks (s.taskCounter + 1) with
           id := s.taskCounter + 1, creator := caller, reward := reward,
           deadline := deadline, status := .Open, title := title,
           description := descr, createdAt := now }))
        (s.taskCounter + 1)).id = s.taskCounter + 1
      rw [fupd_same]
    · intro hs t ht1 ht2
      have := (reach_inv hs).task_id t ht1 ht2
      omega

theorem C9_createTask_witness :
    ("t" ≠ "" ∧ (50 : Nat) ≠ 0 ∧ (5 : Nat) < 10) ∧
    (∃ s', createTask demo0 1 5 "t" "d" 50 10 = .ok (s', demo0.taskCounter + 1) ∧
      s'.taskCounter = demo0.taskCounter + 1 ∧
      (s'.tasks (demo0.taskCounter + 1)).status = .Open ∧
      (s'.tasks (demo0.taskCounter + 1)).creator = 1 ∧
      (s'.tasks (demo0.taskCounter + 1)).id = demo0.taskCounter + 1 ∧
      (Reach demo0 → ∀ t, 1 ≤ t → t ≤ demo0.taskCounter →
        (demo0.tasks t).id < demo0.taskCounter + 1)) :=
  ⟨⟨by decide, by decide, by decide⟩,
    (C9_createTask demo0 1 5 50 10 "t" "d").2 (by decide) (by decide) (by decide)⟩

end TaskEscrow

namespace SimpleEscrow

/-- `struct Escrow` of the SimpleEscrow contract.  The Solidity field
`exists` is a Lean keyword, hence `exists_`. -/
structure Escrow where
  amount : Nat
  creator : Nat
  agent : Nat
  exists_ : Bool
  released : Bool
  deriving DecidableEq, Repr

/-- The all-zero record an unwritten `escrows[i]` slot decodes to. -/
def dEscrow : Escrow :=
  { amount := 0, creator := 0, agent := 0, exists_ := false, released := false }

/-- Custom errors of SimpleEscrow plus the ERC20 revert condition. -/
inductive Err
  | EscrowNotExists
  | EscrowAlreadyExists
  | EscrowAlreadyReleased
  | NotEscrowCreator
  | InsufficientDeposit
  | InvalidAmount
  | InvalidAgent
  | ERC20InsufficientBalance
  deriving DecidableEq, Repr

/-- SimpleEscrow storage plus the token balances it interacts with.
`nextEscrowId` is declared in the source but never read or written by any
function, so it is omitted. -/
structure State where
  escrows : Nat → Escrow
  held : Nat
  balances : Nat → Nat

def initState (bal : Nat → Nat) : State :=
  { escrows := fun _ => dEscrow, held := 0, balances := bal }

/-- `depositEscrow(_taskId, _amount)`: one deposit per task, recorded before
the `safeTransferFrom`. -/
def depositEscrow (s : State) (caller tid amount : Nat) : Except Err State :=
  if amount = 0 then .error .InvalidAmount
  else if (s.escrows tid).exists_ = true then .error .EscrowAlreadyExists
  else
    let newEsc : Escrow :=
      { amount := amount, creator := caller, agent := 0,
        exists_ := true, released := false }
    let s1 := { s with escrows := fupd s.escrows tid newEsc }
    if s1.balances caller < amount then .error .ERC20InsufficientBalance
    else .ok { s1 with
      balances := fupd s1.balances caller (s1.balances caller - amount),
      held := s1.held + amount }

/-- `approveAndRelease(_taskId, _agent)`: releases the whole escrow to the
supplied agent; the record is marked released before the transfer. -/
def approveAndRelease (s : State) (caller tid agent : Nat) : Except Err State :=
  if (s.escrows tid).exists_ = false then .error .EscrowNotExists
  else if (s.escrows tid).released = true then .error .EscrowAlreadyReleased
  else if (s.escrows tid).creator ≠ caller then .error .NotEscrowCreator
  else if agent = 0 then .error .InvalidAgent
  else
    let esc := s.escrows tid
    let esc1 := { esc with released := true, agent := agent }
    let s1 := { s with escrows := fupd s.escrows tid esc1 }
    if s1.held < esc.amount then .error .ERC20InsufficientBalance
    else .ok { s1 with
      held := s1.held - esc.amount,
      balances := fupd s1.balances agent (s1.balances agent + esc.amount) }

/-- `refund(_taskId)`: refunds the whole escrow to the creator; the record is
marked released before the transfer. -/
def refund (s : State) (caller tid : Nat) : Except Err State :=
  if (s.escrows tid).exists_ = false then .error .EscrowNotExists
  else if (s.escrows tid).released = true then .error .EscrowAlreadyReleased
  else if (s.escrows tid).creator ≠ caller then .error .NotEscrowCreator
  else
    let esc := s.escrows tid
    let esc1 := { esc with released := true }
    let s1 := { s with escrows := fupd s.escrows tid esc1 }
    if s1.held < esc.amount then .error .ERC20InsufficientBalance
    else .ok { s1 with
      held := s1.held - esc.amount,
      balances := fupd s1.balances esc.creator
        (s1.balances esc.creator + esc.amount) }

/-- Reachable SimpleEscrow states. -/
inductive Reach : State → Prop
  | init (bal : Nat → Nat) : Reach (initState bal)
  | stepDeposit {s s' : State} {caller tid amount : Nat} :
      Reach s → depositEscrow s caller tid amount = .ok s' → Reach s'
  | stepRelease {s s' : State} {caller tid agent : Nat} :
      Reach s → approveAndRelease s caller tid agent = .ok s' → Reach s'
  | stepRefund {s s' : State} {caller tid : Nat} :
      Reach s → refund s caller tid = .ok s' → Reach s'

/-- Successful `depositEscrow` characterised. -/
theorem simple_deposit_ok {s s' : State} {caller tid amount : Nat}
    (h : depositEscrow s caller tid amount = .ok s') :
    amount ≠ 0 ∧ (s.escrows tid).exists_ = false ∧ amount ≤ s.balances caller ∧
    s'.escrows = fupd s.escrows tid
      { amount := amount, creator := caller, agent := 0,
        exists_ := true, released := false } ∧
    s'.held = s.held + amount ∧
    s'.balances = fupd s.balances caller (s.balances caller - amount) := by
  unfold depositEscrow at h
  dsimp only at h
  by_cases c1 : amount = 0
  · rw [if_pos c1] at h
    exact absurd h (by simp)
  rw [if_neg c1] at h
  by_cases c2 : (s.escrows tid).exists_ = true
  · rw [if_pos c2] at h
    exact absurd h (by simp)
  rw [if_neg c2] at h
  by_cases c3 : s.balances caller < amount
  · rw [if_pos c3] at h
    exact absurd h (by simp)
  rw [if_neg c3] at h
  simp only [Except.ok.injEq] at h
  refine ⟨c1, by simpa using c2, by omega, ?_, ?_, ?_⟩ <;> (rw [← h]; try rfl)

/-- Successful `approveAndRelease` characterised. -/
theorem simple_release_ok {s s' : State} {caller tid agent : Nat}
    (h : approveAndRelease s caller tid agent = .ok s') :
    (s.escrows tid).exists_ = true ∧ (s.escrows tid).released = false ∧
    (s.escrows tid).creator = caller ∧ agent ≠ 0 ∧
    (s.escrows tid).amount ≤ s.held ∧
    s'.escrows = fupd s.escrows tid
      ({ s.escrows tid with released := true, agent := agent }) ∧
    s'.held = s.held - (s.escrows tid).amount ∧
    s'.balances = fupd s.balances agent
      (s.balances agent + (s.escrows tid).amount) := by
  unfold approveAndRelease at h
  dsimp only at h
  by_cases c1 : (s.escrows tid).exists_ = false
  · rw [if_pos c1] at h
    exact absurd h (by simp)
  rw [if_neg c1] at h
  by_cases c2 : (s.escrows tid).released = true
  · rw [if_pos c2] at h
    exact absurd h (by simp)
  rw [if_neg c2] at h
  by_cases c3 : (s.escrows tid).creator ≠ caller
  · rw [if_pos c3] at h
    exact absurd h (by simp)
  rw [if_neg c3] at h
  by_cases c4 : agent = 0
  · rw [if_pos c4] at h
    exact absurd h (by simp)
  rw [if_neg c4] at h
  by_cases c5 : s.held < (s.escrows tid).amount
  · rw [if_pos c5] at h
    exact absurd h (by simp)
  rw [if_neg c5] at h
  simp only [Except.ok.injEq] at h
  push_neg at c3
  refine ⟨by simpa using c1, by simpa using c2, c3, c4, by omega, ?_, ?_, ?_⟩ <;>
    (rw [← h]; try rfl)

/-- Successful `refund` characterised. -/
theorem simple_refund_ok {s s' : State} {caller tid : Nat}
    (h : refund s caller tid = .ok s') :
    (s.escrows tid).exists_ = true ∧ (s.escrows tid).released = false ∧
    (s.escrows tid).creator = caller ∧
    (s.escrows tid).amount ≤ s.held ∧
    s'.escrows = fupd s.escrows tid ({ s.escrows tid with released := true }) ∧
    s'.held = s.held - (s.escrows tid).amount ∧
    s'.balances = fupd s.balances (s.escrows tid).creator
      (s.balances (s.escrows tid).creator + (s.escrows tid).amount) := by
  unfold refund at h
  dsimp only at h
  by_cases c1 : (s.escrows tid).exists_ = false
  · rw [if_pos c1] at h
    exact absurd h (by simp)
  rw [if_neg c1] at h
  by_cases c2 : (s.escrows tid).released = true
  · rw [if_pos c2] at h
    exact absurd h (by simp)
  rw [if_neg c2] at h
  by_cases c3 : (s.escrows tid).creator ≠ caller
  · rw [if_pos c3] at h
    exact absurd h (by simp)
  rw [if_neg c3] at h
  by_cases c5 : s.held < (s.escrows tid).amount
  · rw [if_pos c5] at h
    exact absurd h (by simp)
  rw [if_neg c5] at h
  simp only [Except.ok.injEq] at h
  push_neg at c3
  refine ⟨by simpa using c1, by simpa using c2, c3, by omega, ?_, ?_, ?_⟩ <;>
    (rw [← h]; try rfl)

/-- `depositEscrow` preserves "released implies exists". -/
theorem simple_rel_ex_deposit {s s' : State} {caller tid amount : Nat}
    (hok : depositEscrow s caller tid amount = .ok s')
    (ih : ∀ t, (s.escrows t).released = true → (s.escrows t).exists_ = true) :
    ∀ t, (s'.escrows t).released = true → (s'.escrows t).exists_ = true := by
  intro t ht
  obtain ⟨_, _, _, hesc, _, _⟩ := simple_deposit_ok hok
  rw [hesc] at ht ⊢
  by_cases hteq : t = tid
  · subst hteq
    rw [fupd_same] at ht
    exact absurd ht (by simp)
  · rw [fupd_other _ _ hteq] at ht ⊢
    exact ih t ht

/-- `approveAndRelease` preserves "released implies exists". -/
theorem simple_rel_ex_release {s s' : State} {caller tid agent : Nat}
    (hok : approveAndRelease s caller tid agent = .ok s')
    (ih : ∀ t, (s.escrows t).released = true → (s.escrows t).exists_ = true) :
    ∀ t, (s'.escrows t).released = true → (s'.escrows t).exists_ = true := by
  intro t ht
  obtain ⟨hex, _, _, _, _, hesc, _, _⟩ := simple_release_ok hok
  rw [hesc] at ht ⊢
  by_cases hteq : t = tid
  · subst hteq
    rw [fupd_same]
    simpa using hex
  · rw [fupd_other _ _ hteq] at ht ⊢
    exact ih t ht

/-- `refund` preserves "released implies exists". -/
theorem simple_rel_ex_refund {s s' : State} {caller tid : Nat}
    (hok : refund s caller tid = .ok s')
    (ih : ∀ t, (s.escrows t).released = true → (s.escrows t).exists_ = true) :
    ∀ t, (s'.escrows t).released = true → (s'.escrows t).exists_ = true := by
  intro t ht
  obtain ⟨hex, _, _, _, hesc, _, _⟩ := simple_refund_ok hok
  rw [hesc] at ht ⊢
  by_cases hteq : t = tid
  · subst hteq
    rw [fupd_same]
    simpa using hex
  · rw [fupd_other _ _ hteq] at ht ⊢
    exact ih t ht

/-- In every reachable SimpleEscrow state, a released record exists. -/
theorem simple_reach_released_exists {s : State} (h : Reach s) :
    ∀ t, (s.escrows t).released = true → (s.escrows t).exists_ = true := by
  induction h with
  | init bal =>
    intro t ht
    exact absurd ht (by simp [initState, dEscrow])
  | stepDeposit hr hok ih => exact simple_rel_ex_deposit hok ih
  | stepRelease hr hok ih => exact simple_rel_ex_release hok ih
  | stepRefund hr hok ih => exact simple_rel_ex_refund hok ih


/-- Demo: balances for the SimpleEscrow run. -/
def sdemoBal : Nat → Nat := fun a => if a = 1 then 100 else 0

def sdemo0 : State := initState sdemoBal

/-- Demo: address 1 deposits 50 against (off-chain) task id 7. -/
def sdemo1 : State :=
  match depositEscrow sdemo0 1 7 50 with
  | .ok s => s
  | .error _ => sdemo0

/-- Demo: address 1 cancels and refunds; the record becomes released. -/
def sdemo2 : State :=
  match refund sdemo1 1 7 with
  | .ok s => s
  | .error _ => sdemo1

theorem reach_sdemo0 : Reach sdemo0 := Reach.init sdemoBal

theorem reach_sdemo1 : Reach sdemo1 :=
  Reach.stepDeposit reach_sdemo0
    (show depositEscrow sdemo0 1 7 50 = .ok sdemo1 from rfl)

theorem reach_sdemo2 : Reach sdemo2 :=
  Reach.stepRefund reach_sdemo1
    (show refund sdemo1 1 7 = .ok sdemo2 from rfl)

/-- C8: escrow terminal-release invariant for SimpleEscrow.  Amounts are
`uint256`, hence never negative; and once a record is released, every mutating
entry point rejects it (`depositEscrow` because the record exists,
`approveAndRelease`/`refund` with `EscrowAlreadyReleased`), and no successful
call — on this or any other task id — changes the record again. -/
theorem C8_released_terminal (s : State) (hs : Reach s) (tid : Nat) :
    0 ≤ (s.escrows tid).amount ∧
    ((s.escrows tid).released = true →
      (∀ caller amount : Nat, ∀ s' : State,
        depositEscrow s caller tid amount ≠ .ok s') ∧
      (∀ caller agent : Nat,
        approveAndRelease s caller tid agent = .error .EscrowAlreadyReleased) ∧
      (∀ caller : Nat, refund s caller tid = .error .EscrowAlreadyReleased) ∧
      (∀ caller tid' amount : Nat, ∀ s' : State,
        depositEscrow s caller tid' amount = .ok s' →
        s'.escrows tid = s.escrows tid) ∧
      (∀ caller tid' agent : Nat, ∀ s' : State,
        approveAndRelease s caller tid' agent = .ok s' →
        s'.escrows tid = s.escrows tid) ∧
      (∀ caller tid' : Nat, ∀ s' : State,
        refund s caller tid' = .ok s' → s'.escrows tid = s.escrows tid)) := by
  refine ⟨Nat.zero_le _, fun hrel => ?_⟩
  have hex : (s.escrows tid).exists_ = true :=
    simple_reach_released_exists hs tid hrel
  refine ⟨?_, ?_, ?_, ?_, ?_, ?_⟩
  · intro caller amount s' hok
    obtain ⟨_, hex', _⟩ := simple_deposit_ok hok
    rw [hex] at hex'
    exact absurd hex' (by simp)
  · intro caller agent
    unfold approveAndRelease
    rw [if_neg (by simp [hex]), if_pos hrel]
  · intro caller
    unfold refund
    rw [if_neg (by simp [hex]), if_pos hrel]
  · intro caller tid' amount s' hok
    obtain ⟨_, hex', _, hesc, _, _⟩ := simple_deposit_ok hok
    by_cases hteq : tid' = tid
    · subst hteq
      rw [hex] at hex'
      exact absurd hex' (by simp)
    · rw [hesc, fupd_other _ _ (fun hx => hteq hx.symm)]
  · intro caller tid' agent s' hok
    obtain ⟨_, hrel', _, _, _, hesc, _, _⟩ := simple_release_ok hok
    by_cases hteq : tid' = tid
    · subst hteq
      rw [hrel] at hrel'
      exact absurd hrel' (by simp)
    · rw [hesc, fupd_other _ _ (fun hx => hteq hx.symm)]
  · intro caller tid' s' hok
    obtain ⟨_, hrel', _, _, hesc, _, _⟩ := simple_refund_ok hok
    by_cases hteq : tid' = tid
    · subst hteq
      rw [hrel] at hrel'
      exact absurd hrel' (by simp)
    · rw [hesc, fupd_other _ _ (fun hx => hteq hx.symm)]

theorem C8_released_terminal_witness :
    (Reach sdemo2 ∧ (sdemo2.escrows 7).released = true) ∧
    (∀ caller : Nat, refund sdemo2 caller 7 = .error .EscrowAlreadyReleased) ∧
    (∀ caller agent : Nat,
      approveAndRelease sdemo2 caller 7 agent = .error .EscrowAlreadyReleased) :=
  ⟨⟨reach_sdemo2, rfl⟩,
    ((C8_released_terminal sdemo2 reach_sdemo2 7).2 rfl).2.2.1,
    ((C8_released_terminal sdemo2 reach_sdemo2 7).2 rfl).2.1⟩

end SimpleEscrow

namespace Mirror

/-- Prisma `TaskStatus` enum of the mirror database. -/
inductive MTaskStatus
  | OPEN
  | IN_PROGRESS
  | COMPLETED
  | DISPUTED
  | CLOSED
  | CANCELLED
  deriving DecidableEq, Repr

/-- Prisma `BidStatus` enum of the mirror database. -/
inductive MBidStatus
  | PENDING
  | ACCEPTED
  | REJECTED
  | WITHDRAWN
  deriving DecidableEq, Repr

/-- A mirror bid row (keyed by its id in `MState.bids`). -/
structure MBid where
  taskId : Nat
  agentId : Nat
  amount : Nat
  status : MBidStatus
  txHash : Option String
  deriving DecidableEq, Repr

/-- The fields of a mirror task row the bid-update endpoint touches. -/
structure MTask where
  agentId : Option Nat
  status : MTaskStatus
  escrowDeposited : Bool
  txHash : Option String
  deriving DecidableEq, Repr

/-- The mirror database: task and bid rows by id. -/
structure MState where
  tasks : Nat → Option MTask
  bids : Nat → Option MBid

/-- The combined system: the authoritative chain ledger plus the mirror
database.  The bid-update route has no blockchain client, so it acts on the
`db` component only; any change to `chain` by this endpoint would be a fund
movement outside the authoritative operations. -/
structure SysState where
  chain : TaskEscrow.State
  db : MState

/-- The JSON body of `PUT /api/tasks/[id]/bids`.  `bidId`/`status` are
`Option` to model the handler's missing-field check. -/
structure PutBody where
  bidId : Option Nat
  status : Option String
  forceAccept : Bool
  escrowDeposited : Bool
  txHash : Option String

/-- The handler's possible HTTP responses. -/
inductive PutResponse
  | missingFields
  | bidNotFound
  | alreadyAccepted
  | onlyPending
  | updated (st : MBidStatus)
  | serverError
  deriving DecidableEq, Repr

/-- `status as BidStatus`: Prisma accepts exactly the enum's names. -/
def parseBidStatus (s : String) : Option MBidStatus :=
  if s = "PENDING" then some .PENDING
  else if s = "ACCEPTED" then some .ACCEPTED
  else if s = "REJECTED" then some .REJECTED
  else if s = "WITHDRAWN" then some .WITHDRAWN
  else none

/-- The task-row update both accept paths perform: assign the bid's agent,
force `IN_PROGRESS`, and set `escrowDeposited`/`txHash` when the body
provides them. -/
def applyAccept (bid : MBid) (body : PutBody) (task : MTask) : MTask :=
  { task with
    escrowDeposited := if body.escrowDeposited then true else task.escrowDeposited,
    txHash := if body.txHash.isSome then body.txHash else task.txHash,
    agentId := some bid.agentId,
    status := .IN_PROGRESS }

theorem applyAccept_idem (bid : MBid) (body : PutBody) (t : MTask) :
    applyAccept bid body (applyAccept bid body t) = applyAccept bid body t := by
  unfold applyAccept
  by_cases he : body.escrowDeposited = true <;>
    by_cases ht : body.txHash.isSome = true <;>
      simp [he, ht]

/-- `updateMany` demoting every other still-PENDING bid of the task to
REJECTED. -/
def rejectOtherPending (bs : Nat → Option MBid) (tid keep : Nat) :
    Nat → Option MBid :=
  fun b =>
    match bs b with
    | none => none
    | some bid =>
      if bid.taskId = tid ∧ b ≠ keep ∧ bid.status = .PENDING
      then some { bid with status := .REJECTED }
      else some bid

/-- The `PUT /api/tasks/[id]/bids` handler on the combined system state.  It
returns the new system state and the response; the chain component is never
touched (the route has no chain client).  Failed Prisma operations surface as
`serverError`; in the normal accept path the bid update precedes the task
update and the reject-others update, as in the source. -/
def putBids (sys : SysState) (tid : Nat) (body : PutBody) :
    SysState × PutResponse :=
  match body.bidId, body.status with
  | none, _ => (sys, .missingFields)
  | some _, none => (sys, .missingFields)
  | some bidId, some status =>
    match sys.db.bids bidId with
    | none => (sys, .bidNotFound)
    | some bid =>
      if bid.taskId ≠ tid then (sys, .bidNotFound)
      else if status = "ACCEPTED" ∧ bid.status = .ACCEPTED ∧
          body.forceAccept = true then
        if body.escrowDeposited = true ∨ body.txHash.isSome = true then
          match sys.db.tasks tid with
          | none => (sys, .serverError)
          | some task =>
            ({ sys with db := { sys.db with
                tasks := fupd sys.db.tasks tid
                  (some (applyAccept bid body task)) } },
             .alreadyAccepted)
        else (sys, .alreadyAccepted)
      else if ¬(status = "ACCEPTED" ∧ body.forceAccept = true) ∧
          bid.status ≠ .PENDING then
        (sys, .onlyPending)
      else
        match parseBidStatus status with
        | none => (sys, .serverError)
        | some newSt =>
          let db1 : MState := { sys.db with
            bids := fupd sys.db.bids bidId (some { bid with status := newSt }) }
          if status = "ACCEPTED" then
            match db1.tasks tid with
            | none => ({ sys with db := db1 }, .serverError)
            | some task =>
              let db2 : MState := { db1 with
                tasks := fupd db1.tasks tid (some (applyAccept bid body task)) }
              let db3 : MState := { db2 with
                bids := rejectOtherPending db2.bids tid bidId }
              ({ sys with db := db3 }, .updated newSt)
          else ({ sys with db := db1 }, .updated newSt)

/-- One force-accept application against a mirror whose bid is already
ACCEPTED: the response is the no-op success and the only possible write is the
idempotent task-row update. -/
theorem putBids_force_accept_step (tid bidId : Nat) (bid : MBid)
    (ed : Bool) (tx : Option String)
    (hbst : bid.status = .ACCEPTED) (hbtid : bid.taskId = tid) :
    ∀ (s2 : SysState) (t2 : MTask), s2.db.bids bidId = some bid →
      s2.db.tasks tid = some t2 →
      putBids s2 tid ⟨some bidId, some "ACCEPTED", true, ed, tx⟩ =
        (if ed = true ∨ tx.isSome = true
         then { s2 with db := { s2.db with
            tasks := fupd s2.db.tasks tid
              (some (applyAccept bid ⟨some bidId, some "ACCEPTED", true, ed, tx⟩ t2)) } }
         else s2,
         .alreadyAccepted) := by
  intro s2 t2 hb ht
  unfold putBids
  dsimp only
  rw [hb]
  dsimp only
  rw [if_neg (not_not_intro hbtid), if_pos ⟨rfl, hbst, rfl⟩]
  by_cases hflag : ed = true ∨ tx.isSome = true
  · rw [if_pos hflag, ht]
    rw [if_pos hflag]
  · rw [if_neg hflag, if_neg hflag]

/-- C2: reconciliation idempotence.  If the mirror has reached the target
state (the bid ACCEPTED and the task assigned to its agent, IN_PROGRESS),
then a force-accept request succeeds as a no-op-style success, applying it a
second time returns exactly the state produced by the first application, and
neither application touches the chain component — so the endpoint can never
trigger a fund transfer. -/
theorem C2_force_accept_idempotent
    (sys : SysState) (tid bidId : Nat) (bid : MBid) (task : MTask)
    (ed : Bool) (tx : Option String)
    (hbid : sys.db.bids bidId = some bid)
    (hbst : bid.status = .ACCEPTED)
    (hbtid : bid.taskId = tid)
    (htask : sys.db.tasks tid = some task)
    (hagent : task.agentId = some bid.agentId)
    (htst : task.status = .IN_PROGRESS) :
    (putBids sys tid ⟨some bidId, some "ACCEPTED", true, ed, tx⟩).2 =
      .alreadyAccepted ∧
    putBids (putBids sys tid ⟨some bidId, some "ACCEPTED", true, ed, tx⟩).1 tid
        ⟨some bidId, some "ACCEPTED", true, ed, tx⟩ =
      ((putBids sys tid ⟨some bidId, some "ACCEPTED", true, ed, tx⟩).1,
        .alreadyAccepted) ∧
    (putBids sys tid ⟨some bidId, some "ACCEPTED", true, ed, tx⟩).1.chain =
      sys.chain := by
  have hstep := putBids_force_accept_step tid bidId bid ed tx hbst hbtid
  by_cases hflag : ed = true ∨ tx.isSome = true
  · have h1 := hstep sys task hbid htask
    rw [if_pos hflag] at h1
    have h2 := hstep _ (applyAccept bid ⟨some bidId, some "ACCEPTED", true, ed, tx⟩ task)
      (show ({ sys with db := { sys.db with
          tasks := fupd sys.db.tasks tid
            (some (applyAccept bid ⟨some bidId, some "ACCEPTED", true, ed, tx⟩ task)) } } :
          SysState).db.bids bidId = some bid from hbid)
      (show (fupd sys.db.tasks tid
          (some (applyAccept bid ⟨some bidId, some "ACCEPTED", true, ed, tx⟩ task))) tid =
          some (applyAccept bid ⟨some bidId, some "ACCEPTED", true, ed, tx⟩ task)
        from fupd_same _ _ _)
    rw [if_pos hflag] at h2
    refine ⟨by rw [h1], ?_, by rw [h1]⟩
    rw [h1]
    dsimp only
    rw [h2]
    dsimp only
    rw [applyAccept_idem, fupd_fupd_same]
  · have h1 := hstep sys task hbid htask
    rw [if_neg hflag] at h1
    refine ⟨by rw [h1], ?_, by rw [h1]⟩
    rw [h1]
    dsimp only
    rw [h1]


/-- Concrete mirror target state for the C2 witness: task 1 assigned to agent
10 via bid 1, which is already ACCEPTED. -/
def c2task : MTask :=
  { agentId := some 10, status := .IN_PROGRESS, escrowDeposited := false,
    txHash := none }

def c2bid : MBid :=
  { taskId := 1, agentId := 10, amount := 40, status := .ACCEPTED,
    txHash := none }

def c2sys : SysState :=
  { chain := TaskEscrow.initState 0 (fun _ => 0),
    db := { tasks := fun t => if t = 1 then some c2task else none,
            bids := fun b => if b = 1 then some c2bid else none } }

theorem C2_force_accept_idempotent_witness :
    (c2sys.db.bids 1 = some c2bid ∧ c2bid.status = .ACCEPTED ∧
      c2bid.taskId = 1 ∧ c2sys.db.tasks 1 = some c2task ∧
      c2task.agentId = some c2bid.agentId ∧ c2task.status = .IN_PROGRESS) ∧
    ((putBids c2sys 1 ⟨some 1, some "ACCEPTED", true, true, none⟩).2 =
        .alreadyAccepted ∧
      putBids (putBids c2sys 1 ⟨some 1, some "ACCEPTED", true, true, none⟩).1 1
          ⟨some 1, some "ACCEPTED", true, true, none⟩ =
        ((putBids c2sys 1 ⟨some 1, some "ACCEPTED", true, true, none⟩).1,
          .alreadyAccepted) ∧
      (putBids c2sys 1 ⟨some 1, some "ACCEPTED", true, true, none⟩).1.chain =
        c2sys.chain) :=
  ⟨⟨rfl, rfl, rfl, rfl, rfl, rfl⟩,
    C2_force_accept_idempotent c2sys 1 1 c2bid c2task true none
      rfl rfl rfl rfl rfl rfl⟩

/-- Concrete mirror state for C10: task 1 currently assigned to agent 10, bid
1 already ACCEPTED, bid 2 still PENDING (a second agent), bid 3 REJECTED. -/
def c10task : MTask :=
  { agentId := some 10, status := .IN_PROGRESS, escrowDeposited := true,
    txHash := none }

def c10bid1 : MBid :=
  { taskId := 1, agentId := 10, amount := 40, status := .ACCEPTED,
    txHash := none }

def c10bid2 : MBid :=
  { taskId := 1, agentId := 20, amount := 30, status := .PENDING,
    txHash := none }

def c10bid3 : MBid :=
  { taskId := 1, agentId := 30, amount := 35, status := .REJECTED,
    txHash := none }

def c10sys : SysState :=
  { chain := TaskEscrow.initState 0 (fun _ => 0),
    db := { tasks := fun t => if t = 1 then some c10task else none,
            bids := fun b =>
              if b = 1 then some c10bid1
              else if b = 2 then some c10bid2
              else if b = 3 then some c10bid3
              else none } }

def c10body2 : PutBody :=
  { bidId := some 2, status := some "ACCEPTED", forceAccept := true,
    escrowDeposited := false, txHash := none }

def c10body3 : PutBody :=
  { bidId := some 3, status := some "ACCEPTED", forceAccept := true,
    escrowDeposited := false, txHash := none }

/-- C10 (implicit behaviour): force-accepting the still-PENDING second bid of
a task that already has an ACCEPTED bid succeeds, reassigns the task to the
second bid's agent, and leaves BOTH bids ACCEPTED, because the reject-others
step only demotes bids that are still PENDING.  A force-accept request also
bypasses the pending-status guard entirely: here it succeeds even on the
REJECTED third bid instead of returning the 'Can only update pending bids'
error.  The chain component is untouched throughout. -/
theorem C10_force_accept_double_accept :
    (putBids c10sys 1 c10body2).2 = .updated .ACCEPTED ∧
    (putBids c10sys 1 c10body2).1.db.bids 1 = some c10bid1 ∧
    c10bid1.status = .ACCEPTED ∧
    (putBids c10sys 1 c10body2).1.db.bids 2 =
      some { c10bid2 with status := .ACCEPTED } ∧
    (putBids c10sys 1 c10body2).1.db.tasks 1 =
      some { agentId := some 20, status := .IN_PROGRESS,
             escrowDeposited := true, txHash := none } ∧
    (putBids c10sys 1 c10body3).2 = .updated .ACCEPTED ∧
    (putBids c10sys 1 c10body2).1.chain = c10sys.chain :=
  ⟨rfl, rfl, rfl, rfl, rfl, rfl, rfl⟩

end Mirror
